import Mathlib

/-!
Verification development for the monji trivia/scramble bot.

Shallow embedding of:
* `monji_bot/utils/fuzzy.py`      — the answer classifier
* `monji_bot/trivia/resolution.py`— the winner resolver
* `monji_bot/bot.py`              — message ingestion, session start, legacy helpers
* `monji_bot/trivia/manager.py` and `monji_bot/scramble/scramble_manager.py`
                                  — the item selector (SQL semantics over an abstract pool)
* `monji_bot/trivia/hints.py` and `monji_bot/scramble/scramble_hints.py`
                                  — the hint/timeout ladder
* `monji_bot/trivia/lifecycle.py` — round advancement
plus an interleaving (event/trace) model of one game session whose atomic
blocks are exactly the code regions between `await` points.

Python strings are modelled as `List Char` (inputs in all claims are ASCII).
Python floats (difflib ratios, thresholds 0.8/0.9) are modelled exactly as
rationals via cross-multiplied `Nat` inequalities.
-/

/-! ### Python string primitives (`fuzzy.py` helpers) -/

/-- Characters treated as whitespace by Python `str.split` / `str.strip`
(ASCII subset; all inputs in this development are ASCII). -/
def pyIsSpace (c : Char) : Bool :=
  c = ' ' || c = '\t' || c = '\n' || c = '\r' || c = '\x0b' || c = '\x0c'

/-- Python `str.strip()`: drop whitespace from both ends. -/
def pyStrip (l : List Char) : List Char :=
  ((l.dropWhile pyIsSpace).reverse.dropWhile pyIsSpace).reverse

/-- Helper for `pySplit`: accumulates the current word (reversed). -/
def pySplitAux : List Char → List Char → List (List Char)
  | [], acc => if acc = [] then [] else [acc.reverse]
  | c :: cs, acc =>
    if pyIsSpace c then
      if acc = [] then pySplitAux cs [] else acc.reverse :: pySplitAux cs []
    else
      pySplitAux cs (c :: acc)

/-- Python `str.split()` with no arguments: split on whitespace runs,
discarding empty tokens. -/
def pySplit (l : List Char) : List (List Char) :=
  pySplitAux l []

/-- Join words with single spaces: `" ".join(words)`. -/
def joinSpaces : List (List Char) → List Char
  | [] => []
  | [w] => w
  | w :: ws => w ++ ' ' :: joinSpaces ws

/-- The punctuation set removed by `normalize` in `fuzzy.py` line 24:
`. , ! ? : ; " ' ’ ( ) [ ]`. The three quote characters are written with
`Char.ofNat` (34 = double quote, 39 = apostrophe, 8217 = right single quote). -/
def PUNCT : List Char :=
  ['.', ',', '!', '?', ':', ';', Char.ofNat 34, Char.ofNat 39, Char.ofNat 8217,
   '(', ')', '[', ']']

/-- `normalize` from `fuzzy.py`: `strip`, `lower`, remove punctuation,
collapse whitespace (`" ".join(text.split())`). -/
def normalizeChars (l : List Char) : List Char :=
  joinSpaces (pySplit (((pyStrip l).map Char.toLower).filter (fun c => ¬ PUNCT.contains c)))

/-- The stop-word set from `fuzzy.py` lines 6-18. -/
def STOPWORDS : List (List Char) :=
  ["the", "a", "an", "of", "and", "or", "to", "in", "on", "at", "for"].map String.data

/-- Python `str.isdigit()` for ASCII: nonempty and all decimal digits. -/
def pyIsDigit (l : List Char) : Bool :=
  l ≠ [] && l.all Char.isDigit

/-- `is_numeric` from `fuzzy.py`: `text.strip().isdigit()`. -/
def is_numeric (l : List Char) : Bool :=
  pyIsDigit (pyStrip l)

/-- `all_numeric` from `fuzzy.py`: every answer is numeric
(Python `all` on an empty list is `True`). -/
def all_numeric (answers : List (List Char)) : Bool :=
  answers.all is_numeric

/-- `int(...)` applied to a decimal-digit string. -/
def digitsToNat (l : List Char) : Nat :=
  l.foldl (fun n c => 10 * n + (c.toNat - 48)) 0

/-! ### difflib `SequenceMatcher.ratio`

Ratcliff/Obershelp: total size `M` of all matching blocks found by
recursively splitting around the longest common contiguous block;
`ratio = 2*M / (len a + len b)`.  `find_longest_match` returns, among all
maximal blocks, the one starting earliest in `a`, then earliest in `b`
(the autojunk heuristic only applies to sequences of length ≥ 200 and is
irrelevant to every string analysed here). -/

/-- Length of the longest common prefix of two character lists. -/
def commonPrefixLen : List Char → List Char → Nat
  | a :: as, b :: bs => if a = b then commonPrefixLen as bs + 1 else 0
  | _, _ => 0

/-- `find_longest_match` over the whole of both sequences: returns
`(i, j, k)` with `a[i:i+k] = b[j:j+k]` of maximal `k`, preferring the
smallest `i`, then the smallest `j` (strict-improvement fold). -/
def findLongestMatch (a b : List Char) : Nat × Nat × Nat :=
  (List.range a.length).foldl
    (fun best i =>
      (List.range b.length).foldl
        (fun best j =>
          let k := commonPrefixLen (a.drop i) (b.drop j)
          if best.2.2 < k then (i, j, k) else best)
        best)
    (0, 0, 0)

/-- Total matched length, fuel-indexed.  Each recursive call strictly
decreases the length of the first argument (a nonzero block `(i, j, k)`
satisfies `i + k ≤ a.length` and `k ≥ 1`), so fuel `a.length + 1` always
suffices; structural recursion on fuel keeps the definition
kernel-reducible. -/
def matchedTotalAux : Nat → List Char → List Char → Nat
  | 0, _, _ => 0
  | fuel + 1, a, b =>
    let t := findLongestMatch a b
    let i := t.1
    let j := t.2.1
    let k := t.2.2
    if k = 0 then 0
    else
      k + matchedTotalAux fuel (a.take i) (b.take j)
        + matchedTotalAux fuel (a.drop (i + k)) (b.drop (j + k))

/-- Total size of all matching blocks (`M` in difflib's `ratio`). -/
def matchedTotal (a b : List Char) : Nat :=
  matchedTotalAux (a.length + 1) a b

/-- `SequenceMatcher(None, a, b).ratio() >= num/den`, computed exactly:
`2*M/(|a|+|b|) ≥ num/den  ↔  num*(|a|+|b|) ≤ den*2*M`. -/
def ratioGE (a b : List Char) (num den : Nat) : Bool :=
  num * (a.length + b.length) ≤ den * (2 * matchedTotal a b)

/-! ### `is_fuzzy_match` and `is_correct_answer` (`fuzzy.py`) -/

/-- Absolute difference of two naturals (`abs(len(ua) - len(ca))`). -/
def natDist (m n : Nat) : Nat :=
  max m n - min m n

/-- Does `y` start with `x`? -/
def startsWithChars : List Char → List Char → Bool
  | [], _ => true
  | _ :: _, [] => false
  | a :: as, b :: bs => a = b && startsWithChars as bs

/-- Python `x in y` on strings: `x` is a contiguous substring of `y`. -/
def isSubChars (x : List Char) : List Char → Bool
  | [] => startsWithChars x []
  | b :: bs => startsWithChars x (b :: bs) || isSubChars x bs

/-- Shared tail of `is_fuzzy_match` (`fuzzy.py` lines 86-95): the
substring rule — allowed only when the correct answer is multi-word AND
the user answer has ≥ 2 tokens and length ≥ 3 — followed by the general
fuzzy ratio against `thNum/thDen`. -/
def fuzzyTail (u c : List Char) (uTokens : Nat) (multiWordCorrect : Bool)
    (thNum thDen : Nat) : Bool :=
  if multiWordCorrect && decide (3 ≤ u.length) && decide (2 ≤ uTokens)
      && (isSubChars u c || isSubChars c u) then
    true
  else
    ratioGE u c thNum thDen

/-- `is_fuzzy_match` from `fuzzy.py` (threshold `thNum/thDen`; the Python
default `threshold=0.8` is `4/5`). -/
def is_fuzzy_match (userAnswer correctAnswer : List Char) (thNum thDen : Nat) : Bool :=
  let u := normalizeChars userAnswer
  let c := normalizeChars correctAnswer
  if u = [] || c = [] then false
  else
    let uToks := pySplit u
    let cToks := pySplit c
    let multiWordCorrect : Bool := decide (1 < cToks.length)
    if uToks.all (fun t => STOPWORDS.contains t) then false
    else if u = c then true
    else if multiWordCorrect then
      fuzzyTail u c uToks.length true thNum thDen
    else if c.length ≤ 4 then
      if u.head? ≠ c.head? then false
      else ratioGE u c 9 10
    else if 2 < natDist u.length c.length then false
    else if u.head? ≠ c.head? && u.getLast? ≠ c.getLast? then false
    else fuzzyTail u c uToks.length false thNum thDen

/-- `is_correct_answer` from `fuzzy.py`: numeric mode, single-character
mode, then fuzzy-text mode (threshold 0.8 = 4/5). -/
def is_correct_answer (userAnswer : List Char) (correctAnswers : List (List Char)) : Bool :=
  let u := pyStrip userAnswer
  if all_numeric correctAnswers then
    if ¬ is_numeric u then false
    else (correctAnswers.map (fun a => digitsToNat (pyStrip a))).contains
      (digitsToNat (pyStrip u))
  else if correctAnswers.all (fun a => (pyStrip a).length = 1) then
    (correctAnswers.map (fun a => (pyStrip a).map Char.toLower)).contains
      (u.map Char.toLower)
  else
    correctAnswers.any (fun a => is_fuzzy_match u a 4 5)

/-! ### Candidates and the winner resolver (`resolution.py`) -/

/-- A correct-answer candidate: the submitting participant and the
timestamp of the originating message (`message.created_at.timestamp()`). -/
structure Candidate where
  pid : Int
  ts : Int
deriving DecidableEq, Repr

/-- Python `min(candidates, key=lambda c: c.message.created_at.timestamp())`:
left fold keeping the first element attaining the minimal key (Python's
`min` replaces the current best only on a strictly smaller key). -/
def minCand (c : Candidate) (cs : List Candidate) : Candidate :=
  cs.foldl (fun best x => if x.ts < best.ts then x else best) c

/-- The running minimum is no later than its seed and than every element. -/
theorem minCand_spec (cs : List Candidate) (c : Candidate) :
    (minCand c cs).ts ≤ c.ts ∧ ∀ x ∈ cs, (minCand c cs).ts ≤ x.ts := by
  induction cs generalizing c with
  | nil => exact ⟨le_refl _, by simp⟩
  | cons y ys ih =>
    have h := ih (if y.ts < c.ts then y else c)
    constructor
    · refine le_trans h.1 ?_
      split <;> omega
    · intro x hx
      rcases List.mem_cons.mp hx with rfl | hx
      · refine le_trans h.1 ?_
        split <;> omega
      · exact h.2 x hx

/-- The running minimum is one of the candidates. -/
theorem minCand_mem (cs : List Candidate) (c : Candidate) :
    minCand c cs ∈ c :: cs := by
  induction cs generalizing c with
  | nil => simp [minCand]
  | cons y ys ih =>
    have h := ih (if y.ts < c.ts then y else c)
    have hstep : minCand c (y :: ys) = minCand (if y.ts < c.ts then y else c) ys := rfl
    rw [hstep]
    rcases List.mem_cons.mp h with h1 | h1
    · rw [h1]
      split <;> simp
    · exact List.mem_cons.mpr (Or.inr (List.mem_cons.mpr (Or.inr h1)))

/-- The per-channel game session state: the fields of `GameState`
(`common/state.py`) and of the `GAMES[channel_id]` dict in `bot.py`.
`current_question` is abstracted to presence (`hasQuestion`); the winner
sentinel "round closed, no winner" is `some (-1)`. -/
structure Sess where
  round : Nat
  maxRounds : Nat
  hasQuestion : Bool
  winnerId : Option Int
  scores : Int → Nat
  inProgress : Bool
  resolving : Bool
  midgameQuipDone : Bool
  candidates : List Candidate

/-- `scores[winner_id] = scores.get(winner_id, 0) + 1`. -/
def updateScore (scores : Int → Nat) (p : Int) : Int → Nat :=
  fun q => if q = p then scores q + 1 else scores q

/-- How a single run of `resolve_round_winner` terminates. -/
inductive ResolveOutcome
  /-- Bailed at the re-validation (game over, question gone, winner set,
  or round changed). -/
  | bailedStale
  /-- Bailed because the candidate list was empty. -/
  | bailedNoCandidates
  /-- The awaited `award_points` call raised: the exception propagates out
  of the coroutine; candidates are never cleared and no advancement
  decision is reached. -/
  | awardCallRaised
  /-- Committed a winner and, `round >= max_rounds`, ended the game. -/
  | endedGame
  /-- Committed a winner and advanced to the next round. -/
  | advancedRound
deriving DecidableEq, Repr

/-- `resolve_round_winner` from `resolution.py`, as a state transformer.
`awardOk = false` models the external `award_points` collaborator raising
(`db.py` has no error handling and `resolution.py` lines 60-67 `await` it
outside any `try`). Statement order follows the source: re-validate; pick
`min` by timestamp; set `winner_id`; bump the in-memory score; call
`award_points`; set the mid-game quip flag when due; clear candidates;
clear `resolving`; then end the game or advance. -/
def resolverCommit (awardOk : Bool) (c : Candidate) (rest : List Candidate)
    (s : Sess) : Sess × ResolveOutcome :=
  let w := minCand c rest
  let s1 := {s with winnerId := some w.pid, scores := updateScore s.scores w.pid}
  if awardOk = false then (s1, .awardCallRaised)
  else
    let s2 :=
      if 15 ≤ s1.maxRounds ∧ s1.round = s1.maxRounds / 2 ∧ s1.midgameQuipDone = false
      then {s1 with midgameQuipDone := true} else s1
    let s3 := {s2 with candidates := [], resolving := false}
    if s3.maxRounds ≤ s3.round then (s3, .endedGame) else (s3, .advancedRound)

def resolve_round_winner (awardOk : Bool) (roundNumber : Nat) (s : Sess) :
    Sess × ResolveOutcome :=
  if s.inProgress = false ∨ s.hasQuestion = false ∨ s.winnerId ≠ none
      ∨ s.round ≠ roundNumber then
    ({s with resolving := false}, .bailedStale)
  else
    match s.candidates with
    | [] => ({s with resolving := false}, .bailedNoCandidates)
    | c :: rest => resolverCommit awardOk c rest s

/-- When the re-validation passes and candidates are non-empty, the
resolver runs its commit phase. -/
theorem resolve_round_winner_commit (awardOk : Bool) (r : Nat) (s : Sess)
    (c : Candidate) (rest : List Candidate)
    (hin : s.inProgress = true) (hq : s.hasQuestion = true)
    (hw : s.winnerId = none) (hr : s.round = r)
    (hc : s.candidates = c :: rest) :
    resolve_round_winner awardOk r s = resolverCommit awardOk c rest s := by
  obtain ⟨rd, mx, hqf, wi, sc, ip, rv, mg, cands⟩ := s
  simp only at hin hq hw hr hc
  subst hin hq hw hr hc
  rw [resolve_round_winner, if_neg (by simp)]

/-- A concrete session used in closed counterexamples: round 3 of 10, a
question open, no winner yet, two correct candidates collected (participant
7 at timestamp 100, then participant 8 at timestamp 50). -/
def sampleSess : Sess :=
  { round := 3, maxRounds := 10, hasQuestion := true, winnerId := none,
    scores := fun _ => 0, inProgress := true, resolving := true,
    midgameQuipDone := false, candidates := [⟨7, 100⟩, ⟨8, 50⟩] }

/-- Claim C1: when the resolver reaches a non-empty candidate list with its
re-validation passing, the participant awarded (recorded in `winner_id`) is
the candidate with the earliest submission timestamp, independent of
arrival/append order; in particular two correct answers with timestamps
`t1 < t2` resolve to the `t1` participant in either arrival order. -/
theorem resolver_earliest_timestamp_wins
    (s : Sess) (r : Nat) (c : Candidate) (rest : List Candidate) (awardOk : Bool)
    (hin : s.inProgress = true) (hq : s.hasQuestion = true)
    (hw : s.winnerId = none) (hr : s.round = r)
    (hc : s.candidates = c :: rest) :
    ((resolve_round_winner awardOk r s).1.winnerId = some (minCand c rest).pid
      ∧ minCand c rest ∈ s.candidates
      ∧ ∀ x ∈ s.candidates, (minCand c rest).ts ≤ x.ts)
    ∧ ∀ p1 p2 t1 t2 : Int, t1 < t2 →
        minCand ⟨p1, t1⟩ [⟨p2, t2⟩] = ⟨p1, t1⟩
          ∧ minCand ⟨p2, t2⟩ [⟨p1, t1⟩] = ⟨p1, t1⟩ := by
  refine ⟨⟨?_, ?_, ?_⟩, ?_⟩
  · rw [resolve_round_winner_commit awardOk r s c rest hin hq hw hr hc]
    cases awardOk with
    | false => rfl
    | true =>
      simp only [resolverCommit]
      split
      · rfl
      · split <;> split <;> rfl
  · rw [hc]
    exact minCand_mem rest c
  · rw [hc]
    intro x hx
    rcases List.mem_cons.mp hx with rfl | hx
    · exact (minCand_spec rest x).1
    · exact (minCand_spec rest c).2 x hx
  · intro p1 p2 t1 t2 ht
    constructor <;> simp [minCand] <;> omega

/-- Witness for `resolver_earliest_timestamp_wins` at `sampleSess`:
participant 8 (timestamp 50) beats participant 7 (timestamp 100) even
though 7's answer arrived first. -/
theorem resolver_earliest_timestamp_wins_witness :
    (resolve_round_winner true 3 sampleSess).1.winnerId = some 8 :=
  ((resolver_earliest_timestamp_wins sampleSess 3 ⟨7, 100⟩ [⟨8, 50⟩] true
      rfl rfl rfl rfl rfl).1.1).trans (by decide)

/-- Claim C3 counterexample: at `sampleSess`, a failing `award_points` call
makes `resolve_round_winner` terminate by propagating the exception
(`awardCallRaised`): the candidate list is NOT cleared, `resolving` is NOT
reset, and no advance/end decision is reached — whereas with a succeeding
call the same state advances the round.  The round advancement is
therefore blocked exactly by the collaborator failure. -/
theorem award_failure_blocks_advancement_cex :
    (resolve_round_winner false 3 sampleSess).2 = ResolveOutcome.awardCallRaised
    ∧ (resolve_round_winner false 3 sampleSess).1.candidates = [⟨7, 100⟩, ⟨8, 50⟩]
    ∧ (resolve_round_winner false 3 sampleSess).1.resolving = true
    ∧ (resolve_round_winner true 3 sampleSess).2 = ResolveOutcome.advancedRound := by
  refine ⟨?_, ?_, ?_, ?_⟩ <;> decide

/-- Claim C3 (amended): `resolution.py` awaits `award_points` with no
`try/except` (and `db.py` has none), so if the call raises after the
resolver has committed (`winner_id` set, in-memory score bumped), the
exception propagates out of the resolver task: candidates are not cleared,
`resolving` is not reset, and the session neither advances nor ends — the
failure DOES block round advancement.  With a succeeding call the resolver
always advances or ends the session. -/
theorem award_failure_aborts_resolver
    (s : Sess) (r : Nat) (c : Candidate) (rest : List Candidate)
    (hin : s.inProgress = true) (hq : s.hasQuestion = true)
    (hw : s.winnerId = none) (hr : s.round = r)
    (hc : s.candidates = c :: rest) :
    (resolve_round_winner false r s).2 = ResolveOutcome.awardCallRaised
    ∧ (resolve_round_winner false r s).1.candidates = s.candidates
    ∧ (resolve_round_winner false r s).1.resolving = s.resolving
    ∧ (resolve_round_winner false r s).1.winnerId = some (minCand c rest).pid
    ∧ (resolve_round_winner false r s).1.scores
        = updateScore s.scores (minCand c rest).pid
    ∧ ((resolve_round_winner true r s).2 = ResolveOutcome.endedGame
        ∨ (resolve_round_winner true r s).2 = ResolveOutcome.advancedRound) := by
  rw [resolve_round_winner_commit false r s c rest hin hq hw hr hc,
    resolve_round_winner_commit true r s c rest hin hq hw hr hc]
  refine ⟨rfl, rfl, rfl, rfl, rfl, ?_⟩
  simp only [resolverCommit]
  split
  · next h => simp at h
  · split <;> split <;> simp

/-- Witness for `award_failure_aborts_resolver` at `sampleSess`. -/
theorem award_failure_aborts_resolver_witness :
    (resolve_round_winner false 3 sampleSess).2 = ResolveOutcome.awardCallRaised
    ∧ (resolve_round_winner false 3 sampleSess).1.candidates = sampleSess.candidates :=
  ⟨(award_failure_aborts_resolver sampleSess 3 ⟨7, 100⟩ [⟨8, 50⟩]
      rfl rfl rfl rfl rfl).1,
   (award_failure_aborts_resolver sampleSess 3 ⟨7, 100⟩ [⟨8, 50⟩]
      rfl rfl rfl rfl rfl).2.1⟩

/-- Claim C4 counterexample: `isCorrect("new york", ["new york city"])`
returns `true`, not `false` — `fuzzy.py` lines 86-91 explicitly ACCEPT
substring containment for multi-word expected answers (the normalized
submission "new york" is a substring of "new york city"); no token-set
comparison exists in the code. -/
theorem multiword_substring_accepted_cex :
    is_correct_answer "new york".data ["new york city".data] = true := by
  decide

/-- Claim C4 (amended): in fuzzy-text mode, for a multi-word expected
answer (and a submission that normalizes non-empty and is not all
stop-words) acceptance is: exact normalized equality, OR substring
containment in either direction provided the submission is itself
multi-word with normalized length ≥ 3, OR full-string similarity ratio
≥ 0.8.  Token sets are never compared, and
`isCorrect("new york", ["new york city"])` returns `true`. -/
theorem multiword_fuzzy_characterization
    (ua ca : List Char)
    (hu : normalizeChars ua ≠ [])
    (hc : normalizeChars ca ≠ [])
    (hmulti : 1 < (pySplit (normalizeChars ca)).length)
    (hstop : (pySplit (normalizeChars ua)).all
        (fun t => STOPWORDS.contains t) = false) :
    (is_fuzzy_match ua ca 4 5 = true ↔
      (normalizeChars ua = normalizeChars ca
        ∨ (3 ≤ (normalizeChars ua).length
            ∧ 2 ≤ (pySplit (normalizeChars ua)).length
            ∧ (isSubChars (normalizeChars ua) (normalizeChars ca) = true
                ∨ isSubChars (normalizeChars ca) (normalizeChars ua) = true))
        ∨ ratioGE (normalizeChars ua) (normalizeChars ca) 4 5 = true))
    ∧ is_correct_answer "new york".data ["new york city".data] = true := by
  constructor
  · simp only [is_fuzzy_match]
    rw [if_neg (by simp [hu, hc])]
    rw [if_neg (by rw [hstop]; simp)]
    by_cases he : normalizeChars ua = normalizeChars ca
    · rw [if_pos he]
      simp [he]
    · rw [if_neg he]
      rw [if_pos (by simp [decide_eq_true hmulti])]
      simp only [fuzzyTail]
      by_cases hcnd : (true && decide (3 ≤ (normalizeChars ua).length)
          && decide (2 ≤ (pySplit (normalizeChars ua)).length)
          && (isSubChars (normalizeChars ua) (normalizeChars ca)
              || isSubChars (normalizeChars ca) (normalizeChars ua))) = true
      · rw [if_pos hcnd]
        simp only [Bool.and_eq_true, Bool.or_eq_true, decide_eq_true_eq] at hcnd
        simp only [true_iff]
        exact Or.inr (Or.inl ⟨hcnd.1.1.2, hcnd.1.2, hcnd.2⟩)
      · rw [if_neg hcnd]
        simp only [Bool.and_eq_true, Bool.or_eq_true, decide_eq_true_eq,
          Bool.true_and] at hcnd
        constructor
        · intro hr
          exact Or.inr (Or.inr hr)
        · rintro (h | h | h)
          · exact absurd h he
          · exact (hcnd ⟨⟨h.1, h.2.1⟩, h.2.2⟩).elim
          · exact h
  · decide

/-- Witness for `multiword_fuzzy_characterization`: the substring branch
fires on the claim's own example. -/
theorem multiword_fuzzy_characterization_witness :
    is_fuzzy_match "new york".data "new york city".data 4 5 = true :=
  ((multiword_fuzzy_characterization "new york".data "new york city".data
      (by decide) (by decide) (by decide) (by decide)).1).mpr
    (Or.inr (Or.inl (by decide)))

/-- Claim C5 counterexample: `isCorrect("pari", ["paris"])` returns
`true`, not `false`: for single-word expected answers LONGER than 4
characters `fuzzy.py` falls through to the general ratio with the DEFAULT
threshold 0.8 (the 0.9 threshold applies only to answers of length ≤ 4),
and `SequenceMatcher("pari","paris").ratio() = 8/9 ≈ 0.889 ≥ 0.8`. -/
theorem long_single_word_default_threshold_cex :
    is_correct_answer "pari".data ["paris".data] = true := by
  decide

/-- Claim C5 (amended): for a single-word expected answer longer than 4
characters (submission normalizing non-empty, not all stop-words), fuzzy
mode accepts iff the strings are equal after normalization, or the length
difference is ≤ 2, the first OR last characters match, and the similarity
ratio is ≥ 0.8 — the default threshold, not the tightened 0.9 (which the
code applies only to answers of ≤ 4 characters).  Consequently
`isCorrect("pari", ["paris"])` is `true` and `isCorrect("paris", ["paris"])`
is `true`. -/
theorem long_single_word_characterization
    (ua ca : List Char)
    (hu : normalizeChars ua ≠ [])
    (hc : normalizeChars ca ≠ [])
    (hsingle : ¬ 1 < (pySplit (normalizeChars ca)).length)
    (hlen : 4 < (normalizeChars ca).length)
    (hstop : (pySplit (normalizeChars ua)).all
        (fun t => STOPWORDS.contains t) = false) :
    (is_fuzzy_match ua ca 4 5 = true ↔
      (normalizeChars ua = normalizeChars ca
        ∨ (natDist (normalizeChars ua).length (normalizeChars ca).length ≤ 2
            ∧ ((normalizeChars ua).head? = (normalizeChars ca).head?
                ∨ (normalizeChars ua).getLast? = (normalizeChars ca).getLast?)
            ∧ ratioGE (normalizeChars ua) (normalizeChars ca) 4 5 = true)))
    ∧ is_correct_answer "pari".data ["paris".data] = true
    ∧ is_correct_answer "paris".data ["paris".data] = true := by
  refine ⟨?_, by decide, by decide⟩
  simp only [is_fuzzy_match]
  rw [if_neg (by simp [hu, hc])]
  rw [if_neg (by rw [hstop]; simp)]
  by_cases he : normalizeChars ua = normalizeChars ca
  · rw [if_pos he]
    simp [he]
  · rw [if_neg he]
    rw [if_neg (by simp [hsingle])]
    rw [if_neg (by omega : ¬ (normalizeChars ca).length ≤ 4)]
    split
    · next hdist =>
      simp only [natDist] at hdist ⊢
      constructor
      · intro h
        exact absurd h (by simp)
      · rintro (h | h)
        · exact absurd h he
        · omega
    · next hdist =>
      simp only [natDist] at hdist
      split
      · next hfl =>
        simp only [Bool.and_eq_true, decide_eq_true_eq] at hfl
        constructor
        · intro h
          exact absurd h (by simp)
        · rintro (h | h)
          · exact absurd h he
          · rcases h.2.1 with h1 | h1
            · exact absurd h1 hfl.1
            · exact absurd h1 hfl.2
      · next hfl =>
        simp only [fuzzyTail, Bool.false_and, Bool.false_eq_true, if_false]
        simp only [Bool.and_eq_true, decide_eq_true_eq, not_and, not_not] at hfl
        constructor
        · intro h
          refine Or.inr ⟨by simp only [natDist]; omega, ?_, h⟩
          by_cases h1 : (normalizeChars ua).head? = (normalizeChars ca).head?
          · exact Or.inl h1
          · exact Or.inr (hfl h1)
        · rintro (h | h)
          · exact absurd h he
          · exact h.2.2

/-- Witness for `long_single_word_characterization`: the general-ratio
branch accepts "pari" against "paris" (ratio 8/9, threshold 0.8). -/
theorem long_single_word_characterization_witness :
    is_fuzzy_match "pari".data "paris".data 4 5 = true :=
  ((long_single_word_characterization "pari".data "paris".data
      (by decide) (by decide) (by decide) (by decide) (by decide)).1).mpr
    (Or.inr ⟨by decide, by decide, by decide⟩)

/-! ### Item selector (`trivia/manager.py` / `scramble/scramble_manager.py`)

`get_random_question` / `get_random_scramble_word` share one algorithm:
four SQL attempts in order — (1) `approved AND times_asked = 0 AND id
not in used` (only when the session used-set is non-empty), (2) `approved
AND times_asked = 0`, (3) `approved AND id not in used` ordered by
`times_asked ASC` (only when used-set non-empty), (4) `approved` ordered
by `times_asked ASC`; the first row found wins; then the id is added to
`_used_in_session` and its `times_asked` incremented in the same
transaction.  `ORDER BY RANDOM() LIMIT 1` is modelled by an arbitrary
choice oracle `choose` that picks an element of the candidate list (for
the `times_asked ASC` queries, among the rows of minimal `times_asked`). -/

/-- A row of the `questions` / `scramble_words` table (the fields the
selector reads). -/
structure Item where
  id : Nat
  approved : Bool
  timesAsked : Nat
deriving DecidableEq, Repr

/-- Selector-visible state: the shared pool and the module-level
`_used_in_session` set. -/
structure SelState where
  pool : List Item
  usedInSession : List Nat
deriving DecidableEq, Repr

/-- `WHERE approved = TRUE`. -/
def approvedC (st : SelState) : List Item :=
  st.pool.filter (fun i => i.approved)

/-- `WHERE approved = TRUE AND times_asked = 0 AND id <> ALL(used)`. -/
def zeroNotUsedC (st : SelState) : List Item :=
  st.pool.filter (fun i => i.approved && decide (i.timesAsked = 0)
    && decide (i.id ∉ st.usedInSession))

/-- `WHERE approved = TRUE AND times_asked = 0`. -/
def zeroAnyC (st : SelState) : List Item :=
  st.pool.filter (fun i => i.approved && decide (i.timesAsked = 0))

/-- `WHERE approved = TRUE AND id <> ALL(used)`. -/
def notUsedApprovedC (st : SelState) : List Item :=
  st.pool.filter (fun i => i.approved && decide (i.id ∉ st.usedInSession))

/-- `ORDER BY times_asked ASC ... LIMIT 1`: restrict to the rows of
minimal `times_asked` (the random tie-break picks among these). -/
def leastTa : List Item → List Item
  | [] => []
  | x :: xs =>
    let m := xs.foldl (fun m i => min m i.timesAsked) x.timesAsked
    (x :: xs).filter (fun i => decide (i.timesAsked = m))

/-- First of four query results (the `for sql, params in attempts` loop:
`if row: break`). -/
def firstSome4 (a b c d : Option Item) : Option Item :=
  match a with
  | some x => some x
  | none =>
    match b with
    | some x => some x
    | none =>
      match c with
      | some x => some x
      | none => d

/-- `UPDATE ... SET times_asked = times_asked + 1 WHERE id = $1`. -/
def bumpTimesAsked (pool : List Item) (qid : Nat) : List Item :=
  pool.map (fun i => if i.id = qid then {i with timesAsked := i.timesAsked + 1} else i)

/-- `_used_in_session.add(qid)` plus the `times_asked` increment. -/
def markUsed (it : Item) (st : SelState) : SelState :=
  { pool := bumpTimesAsked st.pool it.id,
    usedInSession := st.usedInSession.insert it.id }

/-- `get_random_question` (= `get_random_scramble_word`): the four
attempts in source order, the first returned row marked used and
incremented; `none` when every attempt is empty. -/
def get_random_question (choose : List Item → Option Item) (st : SelState) :
    Option Item × SelState :=
  let a1 := if st.usedInSession ≠ [] then choose (zeroNotUsedC st) else none
  let a2 := choose (zeroAnyC st)
  let a3 := if st.usedInSession ≠ [] then choose (leastTa (notUsedApprovedC st)) else none
  let a4 := choose (leastTa (approvedC st))
  match firstSome4 a1 a2 a3 a4 with
  | none => (none, st)
  | some it => (some it, markUsed it st)

/-- Session-usage invariant: every id recorded in `_used_in_session` was
selected earlier in this session, so its row's `times_asked` was
incremented and is now positive. -/
def UsedMarked (st : SelState) : Prop :=
  ∀ i ∈ st.pool, i.id ∈ st.usedInSession → 1 ≤ i.timesAsked

/-- Elements of `leastTa l` come from `l`. -/
theorem leastTa_subset {l : List Item} {i : Item} (h : i ∈ leastTa l) : i ∈ l := by
  cases l with
  | nil => simp [leastTa] at h
  | cons x xs =>
    simp only [leastTa] at h
    exact List.mem_of_mem_filter h

/-- The fold computing the minimal `times_asked` attains its value. -/
theorem foldl_min_attained (xs : List Item) (a : Nat) :
    xs.foldl (fun m i => min m i.timesAsked) a = a
      ∨ ∃ i ∈ xs, xs.foldl (fun m i => min m i.timesAsked) a = i.timesAsked := by
  induction xs generalizing a with
  | nil => exact Or.inl rfl
  | cons y ys ih =>
    rcases ih (min a y.timesAsked) with h | ⟨i, hi, h⟩
    · rcases Nat.le_total a y.timesAsked with hle | hle
      · exact Or.inl (by simpa [Nat.min_eq_left hle] using h)
      · exact Or.inr ⟨y, by simp, by simpa [Nat.min_eq_right hle] using h⟩
    · exact Or.inr ⟨i, by simp [hi], h⟩

/-- `leastTa` of a non-empty list is non-empty. -/
theorem leastTa_ne_nil {l : List Item} (h : l ≠ []) : leastTa l ≠ [] := by
  cases l with
  | nil => exact absurd rfl h
  | cons x xs =>
    simp only [leastTa, ne_eq, List.filter_eq_nil_iff, not_forall]
    rcases foldl_min_attained xs x.timesAsked with hm | ⟨i, hi, hm⟩
    · exact ⟨x, by simp, by simp [hm]⟩
    · exact ⟨i, by simp [hi], by simp [hm]⟩

/-- A choice oracle obeying the membership law returns `none` on `[]`. -/
theorem choose_nil_eq_none (choose : List Item → Option Item)
    (hMem : ∀ l x, choose l = some x → x ∈ l) : choose [] = none := by
  cases h : choose [] with
  | none => rfl
  | some x => exact absurd (hMem [] x h) (by simp)

/-- `firstSome4` returns the first non-`none` attempt. -/
theorem firstSome4_eq_some {a b c d : Option Item} {x : Item}
    (h : firstSome4 a b c d = some x) :
    a = some x ∨ (a = none ∧ b = some x) ∨ (a = none ∧ b = none ∧ c = some x)
      ∨ (a = none ∧ b = none ∧ c = none ∧ d = some x) := by
  cases a <;> cases b <;> cases c <;> cases d <;> simp_all [firstSome4]

/-- `firstSome4` is `none` only when every attempt is. -/
theorem firstSome4_eq_none {a b c d : Option Item}
    (h : firstSome4 a b c d = none) :
    a = none ∧ b = none ∧ c = none ∧ d = none := by
  cases a <;> cases b <;> cases c <;> cases d <;> simp_all [firstSome4]

/-- Marking an item used preserves the session-usage invariant. -/
theorem usedMarked_markUsed (st : SelState) (it : Item) (h : UsedMarked st) :
    UsedMarked (markUsed it st) := by
  intro i hi hid
  simp only [markUsed, bumpTimesAsked] at hi hid
  rcases List.mem_map.mp hi with ⟨i0, hi0, rfl⟩
  by_cases he : i0.id = it.id
  · simp [he]
  · rw [if_neg he] at hid ⊢
    rcases List.mem_insert_iff.mp hid with h1 | h1
    · exact absurd h1 he
    · exact h i0 hi0 h1

/-- Claim C6: (i) the selector returns `none` iff the pool has no approved
item; (ii) every returned item is an approved pool member; (iii) selection
adds the returned id to the session used-set and preserves the invariant
that used ids have positive `times_asked`; (iv) while an approved item
outside the used-set remains, the returned item is NOT in the used-set (no
repeats while unused items remain); (v) once every approved item is used,
the selector still returns an item — one of the already-used (recycled)
approved items, never `none`. -/
theorem selector_nonempty_pool_progress
    (choose : List Item → Option Item)
    (hMem : ∀ l x, choose l = some x → x ∈ l)
    (hSome : ∀ l, l ≠ [] → (choose l).isSome = true)
    (st : SelState) :
    ((get_random_question choose st).1 = none ↔ approvedC st = [])
    ∧ (∀ it, (get_random_question choose st).1 = some it →
        it ∈ st.pool ∧ it.approved = true)
    ∧ (∀ it, (get_random_question choose st).1 = some it →
        (get_random_question choose st).2.usedInSession
          = st.usedInSession.insert it.id
        ∧ (UsedMarked st → UsedMarked (get_random_question choose st).2))
    ∧ (UsedMarked st →
        (∃ i ∈ st.pool, i.approved = true ∧ i.id ∉ st.usedInSession) →
        ∃ it, (get_random_question choose st).1 = some it
          ∧ it.id ∉ st.usedInSession)
    ∧ ((∀ i ∈ st.pool, i.approved = true → i.id ∈ st.usedInSession) →
        approvedC st ≠ [] →
        ∃ it, (get_random_question choose st).1 = some it
          ∧ it.id ∈ st.usedInSession) := by
  have hmemZNU : ∀ x ∈ zeroNotUsedC st,
      x ∈ st.pool ∧ x.approved = true ∧ x.timesAsked = 0
        ∧ x.id ∉ st.usedInSession := by
    intro x hx
    have := List.mem_filter.mp hx
    simp only [Bool.and_eq_true, decide_eq_true_eq] at this
    exact ⟨this.1, this.2.1.1, this.2.1.2, this.2.2⟩
  have hmemZA : ∀ x ∈ zeroAnyC st,
      x ∈ st.pool ∧ x.approved = true ∧ x.timesAsked = 0 := by
    intro x hx
    have := List.mem_filter.mp hx
    simp only [Bool.and_eq_true, decide_eq_true_eq] at this
    exact ⟨this.1, this.2.1, this.2.2⟩
  have hmemNUA : ∀ x ∈ leastTa (notUsedApprovedC st),
      x ∈ st.pool ∧ x.approved = true ∧ x.id ∉ st.usedInSession := by
    intro x hx
    have := List.mem_filter.mp (leastTa_subset hx)
    simp only [Bool.and_eq_true, decide_eq_true_eq] at this
    exact ⟨this.1, this.2.1, this.2.2⟩
  have hmemA : ∀ x ∈ leastTa (approvedC st),
      x ∈ st.pool ∧ x.approved = true := by
    intro x hx
    have := List.mem_filter.mp (leastTa_subset hx)
    exact ⟨this.1, this.2⟩
  have hres : ∀ it, (get_random_question choose st).1 = some it →
      it ∈ st.pool ∧ it.approved = true := by
    intro it h
    simp only [get_random_question] at h
    rcases hcase : firstSome4
        (if st.usedInSession ≠ [] then choose (zeroNotUsedC st) else none)
        (choose (zeroAnyC st))
        (if st.usedInSession ≠ [] then choose (leastTa (notUsedApprovedC st)) else none)
        (choose (leastTa (approvedC st))) with _ | x
    · rw [hcase] at h
      exact absurd h (by simp)
    · rw [hcase] at h
      simp only [Option.some.injEq] at h
      subst h
      rcases firstSome4_eq_some hcase with h1 | ⟨_, h1⟩ | ⟨_, _, h1⟩ | ⟨_, _, _, h1⟩
      · rcases em (st.usedInSession ≠ []) with hne | hne
        · rw [if_pos hne] at h1
          have := hmemZNU x (hMem _ _ h1)
          exact ⟨this.1, this.2.1⟩
        · rw [if_neg hne] at h1
          exact absurd h1 (by simp)
      · have := hmemZA x (hMem _ _ h1)
        exact ⟨this.1, this.2.1⟩
      · rcases em (st.usedInSession ≠ []) with hne | hne
        · rw [if_pos hne] at h1
          have := hmemNUA x (hMem _ _ h1)
          exact ⟨this.1, this.2.1⟩
        · rw [if_neg hne] at h1
          exact absurd h1 (by simp)
      · exact hmemA x (hMem _ _ h1)
  refine ⟨?_, hres, ?_, ?_, ?_⟩
  · constructor
    · intro h
      by_contra happ
      have h4 : (choose (leastTa (approvedC st))).isSome = true :=
        hSome _ (leastTa_ne_nil happ)
      simp only [get_random_question] at h
      rcases hcase : firstSome4
          (if st.usedInSession ≠ [] then choose (zeroNotUsedC st) else none)
          (choose (zeroAnyC st))
          (if st.usedInSession ≠ [] then choose (leastTa (notUsedApprovedC st)) else none)
          (choose (leastTa (approvedC st))) with _ | x
      · have := (firstSome4_eq_none hcase).2.2.2
        rw [this] at h4
        exact absurd h4 (by simp)
      · rw [hcase] at h
        exact absurd h (by simp)
    · intro h
      have hall : ∀ i ∈ st.pool, i.approved = false := by
        intro i hi
        have := List.filter_eq_nil_iff.mp h i hi
        simpa using this
      have e1 : zeroNotUsedC st = [] := by
        apply List.filter_eq_nil_iff.mpr
        intro i hi
        simp [hall i hi]
      have e2 : zeroAnyC st = [] := by
        apply List.filter_eq_nil_iff.mpr
        intro i hi
        simp [hall i hi]
      have e3 : notUsedApprovedC st = [] := by
        apply List.filter_eq_nil_iff.mpr
        intro i hi
        simp [hall i hi]
      simp only [get_random_question, e1, e2, e3, h, leastTa,
        choose_nil_eq_none choose hMem, ite_self]
      rfl
  · intro it h
    constructor
    · simp only [get_random_question] at h ⊢
      rcases hcase : firstSome4
          (if st.usedInSession ≠ [] then choose (zeroNotUsedC st) else none)
          (choose (zeroAnyC st))
          (if st.usedInSession ≠ [] then choose (leastTa (notUsedApprovedC st)) else none)
          (choose (leastTa (approvedC st))) with _ | x
      · rw [hcase] at h
        exact absurd h (by simp)
      · rw [hcase] at h
        simp only [Option.some.injEq] at h
        subst h
        rfl
    · intro hinv
      simp only [get_random_question] at h ⊢
      rcases hcase : firstSome4
          (if st.usedInSession ≠ [] then choose (zeroNotUsedC st) else none)
          (choose (zeroAnyC st))
          (if st.usedInSession ≠ [] then choose (leastTa (notUsedApprovedC st)) else none)
          (choose (leastTa (approvedC st))) with _ | x
      · rw [hcase] at h
        exact absurd h (by simp)
      · exact usedMarked_markUsed st x hinv
  · intro hinv ⟨w, hw, hwa, hwu⟩
    rcases em (st.usedInSession ≠ []) with hne | hne
    · have hnua : notUsedApprovedC st ≠ [] := by
        intro hnil
        have := List.filter_eq_nil_iff.mp hnil w hw
        simp [hwa, hwu] at this
      have h3 : (choose (leastTa (notUsedApprovedC st))).isSome = true :=
        hSome _ (leastTa_ne_nil hnua)
      simp only [get_random_question]
      rcases hcase : firstSome4
          (if st.usedInSession ≠ [] then choose (zeroNotUsedC st) else none)
          (choose (zeroAnyC st))
          (if st.usedInSession ≠ [] then choose (leastTa (notUsedApprovedC st)) else none)
          (choose (leastTa (approvedC st))) with _ | x
      · have := (firstSome4_eq_none hcase).2.2.1
        rw [if_pos hne] at this
        rw [this] at h3
        exact absurd h3 (by simp)
      · refine ⟨x, rfl, ?_⟩
        rcases firstSome4_eq_some hcase with h1 | ⟨_, h1⟩ | ⟨_, _, h1⟩ | ⟨_, _, h1, _⟩
        · rw [if_pos hne] at h1
          exact (hmemZNU x (hMem _ _ h1)).2.2.2
        · have hx := hmemZA x (hMem _ _ h1)
          intro hxin
          have := hinv x hx.1 hxin
          omega
        · rw [if_pos hne] at h1
          exact (hmemNUA x (hMem _ _ h1)).2.2
        · rw [if_pos hne] at h1
          rw [h1] at h3
          exact absurd h3 (by simp)
    · push_neg at hne
      have happ : approvedC st ≠ [] := by
        intro hnil
        have := List.filter_eq_nil_iff.mp hnil w hw
        simp [hwa] at this
      have h4 : (choose (leastTa (approvedC st))).isSome = true :=
        hSome _ (leastTa_ne_nil happ)
      simp only [get_random_question]
      rcases hcase : firstSome4
          (if st.usedInSession ≠ [] then choose (zeroNotUsedC st) else none)
          (choose (zeroAnyC st))
          (if st.usedInSession ≠ [] then choose (leastTa (notUsedApprovedC st)) else none)
          (choose (leastTa (approvedC st))) with _ | x
      · have := (firstSome4_eq_none hcase).2.2.2
        rw [this] at h4
        exact absurd h4 (by simp)
      · exact ⟨x, rfl, by simp [hne]⟩
  · intro hall happ
    have h4 : (choose (leastTa (approvedC st))).isSome = true :=
      hSome _ (leastTa_ne_nil happ)
    simp only [get_random_question]
    rcases hcase : firstSome4
        (if st.usedInSession ≠ [] then choose (zeroNotUsedC st) else none)
        (choose (zeroAnyC st))
        (if st.usedInSession ≠ [] then choose (leastTa (notUsedApprovedC st)) else none)
        (choose (leastTa (approvedC st))) with _ | x
    · have := (firstSome4_eq_none hcase).2.2.2
      rw [this] at h4
      exact absurd h4 (by simp)
    · refine ⟨x, rfl, ?_⟩
      have hx : x ∈ st.pool ∧ x.approved = true := by
        rcases firstSome4_eq_some hcase with h1 | ⟨_, h1⟩ | ⟨_, _, h1⟩ | ⟨_, _, _, h1⟩
        · rcases em (st.usedInSession ≠ []) with hne | hne
          · rw [if_pos hne] at h1
            have := hmemZNU x (hMem _ _ h1)
            exact ⟨this.1, this.2.1⟩
          · rw [if_neg hne] at h1
            exact absurd h1 (by simp)
        · have := hmemZA x (hMem _ _ h1)
          exact ⟨this.1, this.2.1⟩
        · rcases em (st.usedInSession ≠ []) with hne | hne
          · rw [if_pos hne] at h1
            have := hmemNUA x (hMem _ _ h1)
            exact ⟨this.1, this.2.1⟩
          · rw [if_neg hne] at h1
            exact absurd h1 (by simp)
        · exact hmemA x (hMem _ _ h1)
      exact hall x hx.1 hx.2

/-- Witness for `selector_nonempty_pool_progress`: a fresh session over a
pool of exactly 3 approved items, with the head-picking oracle — the first
call returns an item outside the (empty) used-set. -/
theorem selector_nonempty_pool_progress_witness :
    ∃ it, (get_random_question (fun l => l.head?)
        ⟨[⟨1, true, 0⟩, ⟨2, true, 0⟩, ⟨3, true, 0⟩], []⟩).1 = some it
      ∧ it.id ∉ ([] : List Nat) := by
  refine (selector_nonempty_pool_progress (fun l => l.head?) ?_ ?_
      ⟨[⟨1, true, 0⟩, ⟨2, true, 0⟩, ⟨3, true, 0⟩], []⟩).2.2.2.1 ?_ ?_
  · intro l x h
    cases l with
    | nil => simp at h
    | cons a as =>
      simp only [List.head?_cons, Option.some.injEq] at h
      subst h
      exact List.mem_cons_self _ _
  · intro l h
    cases l with
    | nil => exact absurd rfl h
    | cons a as => simp
  · intro i hi hid
    simp at hid
  · exact ⟨⟨1, true, 0⟩, by simp, rfl, by simp⟩

/-! ### `/trivia` session start (`bot.py` lines 117-171) -/

/-- Process-level state the `/trivia` command touches: the `GAMES`
registry (channel id → session) and the trivia manager's module-level
`_used_in_session` set. -/
structure BotState where
  games : Nat → Option Sess
  usedInSession : List Nat

/-- How the `/trivia` slash command responds. -/
inductive TriviaStartResult
  | invalidRounds
  | duplicateSession
  | started
deriving DecidableEq, Repr

/-- The fresh game-state dict created by `/trivia` (`bot.py` lines
152-161). -/
def freshTriviaSess (rounds : Int) : Sess :=
  { round := 0, maxRounds := rounds.toNat, hasQuestion := false,
    winnerId := none, scores := fun _ => 0, inProgress := true,
    resolving := false, midgameQuipDone := false, candidates := [] }

/-- The `/trivia` command handler (`bot.py` `trivia`): note that
`reset_session_questions()` is its FIRST statement (line 123), executed
before the rounds bound check and before the duplicate-session check; the
validation failures then return early without touching `GAMES`. -/
def trivia_command (channelId : Nat) (rounds : Int) (st : BotState) :
    TriviaStartResult × BotState :=
  let st1 : BotState := { games := st.games, usedInSession := [] }
  if rounds < 5 ∨ 100 < rounds then (.invalidRounds, st1)
  else if (match st1.games channelId with
           | some g => g.inProgress
           | none => false) then (.duplicateSession, st1)
  else
    (.started,
      { st1 with games := fun ch =>
          if ch = channelId then some (freshTriviaSess rounds) else st1.games ch })

/-- Claim C7 counterexample: a `/trivia` request with `rounds = 3`
(rejected as out of bounds) against a registry state whose used-question
set is `[7]` IS a state change: the used-question tracking is cleared to
`[]` by the unconditional `reset_session_questions()` call that precedes
validation. -/
theorem trivia_reject_clears_used_set_cex :
    (trivia_command 1 3 ⟨fun _ => none, [7]⟩).1 = TriviaStartResult.invalidRounds
    ∧ (trivia_command 1 3 ⟨fun _ => none, [7]⟩).2.usedInSession = []
    ∧ (trivia_command 1 3 ⟨fun _ => none, [7]⟩).2.usedInSession ≠ [7] := by
  refine ⟨?_, ?_, ?_⟩ <;> decide

/-- Claim C7 (amended): whenever a session-start request is rejected
(maxRounds outside [5,100] or a session already in progress for the key),
the error is surfaced and the games registry is untouched — but the
session-level used-question set is NOT preserved: it is unconditionally
cleared before validation runs. -/
theorem trivia_reject_preserves_games_clears_used
    (channelId : Nat) (rounds : Int) (st : BotState)
    (h : (trivia_command channelId rounds st).1 = TriviaStartResult.invalidRounds
        ∨ (trivia_command channelId rounds st).1 = TriviaStartResult.duplicateSession) :
    (trivia_command channelId rounds st).2.games = st.games
    ∧ (trivia_command channelId rounds st).2.usedInSession = [] := by
  by_cases hb : rounds < 5 ∨ 100 < rounds
  · simp only [trivia_command, if_pos hb]
    refine ⟨?_, ?_⟩ <;> first | rfl | trivial
  · by_cases hd : (match st.games channelId with
        | some g => g.inProgress
        | none => false) = true
    · simp only [trivia_command, if_neg hb]
      rw [if_pos hd]
      exact ⟨rfl, rfl⟩
    · simp only [trivia_command, if_neg hb] at h
      rw [if_neg hd] at h
      rcases h with h | h <;> simp at h

/-- Witness for `trivia_reject_preserves_games_clears_used` at the
rejected `rounds = 3` request. -/
theorem trivia_reject_preserves_games_clears_used_witness :
    (trivia_command 1 3 ⟨fun _ => none, [7]⟩).2.usedInSession = [] :=
  (trivia_reject_preserves_games_clears_used 1 3 ⟨fun _ => none, [7]⟩
    (Or.inl (by decide))).2

/-! ### Hint/timeout ladder (`trivia/hints.py`, `scramble/scramble_hints.py`)

Each `await` in the ladder is a suspension point where other tasks may
mutate the shared session; the ladder is therefore modelled as a function
of the session states it observes at its checkpoints (`s1 s2 s3` before
hints 1-3, `s4` after the final wait when `resolving` is read, `s5` after
the extra grace sleep taken when `s4.resolving`).  Its only state mutation
is the final commit; the result carries the list of hint levels emitted,
the mutated state (`none` = no mutation), and whether "timeout" was
returned to the caller. -/

/-- The three cancellation conditions re-checked at every checkpoint
(`hints.py` lines 91-95 and 148-152, `scramble_hints.py` lines 62-66,
79-83, 97-101). -/
abbrev ladderCancelled (r : Nat) (s : Sess) : Prop :=
  s.inProgress = false ∨ s.winnerId ≠ none ∨ s.round ≠ r

/-- `handle_game_question_timeout` (`hints.py`): initial guard on the
question, three hint checkpoints, final wait, extra grace wait iff a
resolution is in flight, final check, then the no-winner commit
(`winner_id := -1`, clear candidates) and the "timeout" signal. -/
def trivia_ladder (r : Nat) (hasQ : Bool) (s1 s2 s3 s4 s5 : Sess) :
    List Nat × Option Sess × Bool :=
  if hasQ = false then ([], none, false)
  else if ladderCancelled r s1 then ([], none, false)
  else if ladderCancelled r s2 then ([1], none, false)
  else if ladderCancelled r s3 then ([1, 2], none, false)
  else
    let sF := if s4.resolving then s5 else s4
    if ladderCancelled r sF then ([1, 2, 3], none, false)
    else ([1, 2, 3], some {sF with winnerId := some (-1), candidates := []}, true)

/-- `handle_scramble_timeout` (`scramble_hints.py`): two hint checkpoints,
a final check (no resolving-grace step here), then the same commit. -/
def scramble_ladder (r : Nat) (hasQ : Bool) (s1 s2 s3 : Sess) :
    List Nat × Option Sess × Bool :=
  if hasQ = false then ([], none, false)
  else if ladderCancelled r s1 then ([], none, false)
  else if ladderCancelled r s2 then ([1], none, false)
  else if ladderCancelled r s3 then ([1, 2], none, false)
  else ([1, 2], some {s3 with winnerId := some (-1), candidates := []}, true)

/-- Claim C9: at every checkpoint both schedulers re-check the three
cancellation conditions and, if any holds, emit nothing further, mutate
no session state and signal no timeout; if the full ladder completes with
the round still unresolved — the trivia ladder re-reading the state after
an extra grace wait when `resolving` was set — the scheduler sets
`winner_id` to the no-winner sentinel `-1`, clears the candidate list,
and returns "timeout" to its caller. -/
theorem ladder_checkpoints_and_timeout_commit
    (r : Nat) (s1 s2 s3 s4 s5 t1 t2 t3 : Sess) :
    (ladderCancelled r s1 →
      trivia_ladder r true s1 s2 s3 s4 s5 = ([], none, false))
    ∧ (¬ ladderCancelled r s1 → ladderCancelled r s2 →
      trivia_ladder r true s1 s2 s3 s4 s5 = ([1], none, false))
    ∧ (¬ ladderCancelled r s1 → ¬ ladderCancelled r s2 → ladderCancelled r s3 →
      trivia_ladder r true s1 s2 s3 s4 s5 = ([1, 2], none, false))
    ∧ (¬ ladderCancelled r s1 → ¬ ladderCancelled r s2 → ¬ ladderCancelled r s3 →
      ladderCancelled r (if s4.resolving then s5 else s4) →
      trivia_ladder r true s1 s2 s3 s4 s5 = ([1, 2, 3], none, false))
    ∧ (¬ ladderCancelled r s1 → ¬ ladderCancelled r s2 → ¬ ladderCancelled r s3 →
      ¬ ladderCancelled r (if s4.resolving then s5 else s4) →
      trivia_ladder r true s1 s2 s3 s4 s5
        = ([1, 2, 3],
           some {(if s4.resolving then s5 else s4) with
                   winnerId := some (-1), candidates := []},
           true))
    ∧ (ladderCancelled r t1 →
      scramble_ladder r true t1 t2 t3 = ([], none, false))
    ∧ (¬ ladderCancelled r t1 → ladderCancelled r t2 →
      scramble_ladder r true t1 t2 t3 = ([1], none, false))
    ∧ (¬ ladderCancelled r t1 → ¬ ladderCancelled r t2 → ladderCancelled r t3 →
      scramble_ladder r true t1 t2 t3 = ([1, 2], none, false))
    ∧ (¬ ladderCancelled r t1 → ¬ ladderCancelled r t2 → ¬ ladderCancelled r t3 →
      scramble_ladder r true t1 t2 t3
        = ([1, 2], some {t3 with winnerId := some (-1), candidates := []}, true)) := by
  refine ⟨?_, ?_, ?_, ?_, ?_, ?_, ?_, ?_, ?_⟩
  · intro h1
    simp only [trivia_ladder]
    rw [if_neg (by simp), if_pos h1]
  · intro h1 h2
    simp only [trivia_ladder]
    rw [if_neg (by simp), if_neg h1, if_pos h2]
  · intro h1 h2 h3
    simp only [trivia_ladder]
    rw [if_neg (by simp), if_neg h1, if_neg h2, if_pos h3]
  · intro h1 h2 h3 h4
    simp only [trivia_ladder]
    rw [if_neg (by simp), if_neg h1, if_neg h2, if_neg h3, if_pos h4]
  · intro h1 h2 h3 h4
    simp only [trivia_ladder]
    rw [if_neg (by simp), if_neg h1, if_neg h2, if_neg h3, if_neg h4]
  · intro h1
    simp only [scramble_ladder]
    rw [if_neg (by simp), if_pos h1]
  · intro h1 h2
    simp only [scramble_ladder]
    rw [if_neg (by simp), if_neg h1, if_pos h2]
  · intro h1 h2 h3
    simp only [scramble_ladder]
    rw [if_neg (by simp), if_neg h1, if_neg h2, if_pos h3]
  · intro h1 h2 h3
    simp only [scramble_ladder]
    rw [if_neg (by simp), if_neg h1, if_neg h2, if_neg h3]

/-- Witness for `ladder_checkpoints_and_timeout_commit`: the full ladder
at `sampleSess` (in progress, round 3, winner unset, resolving) commits
the no-winner sentinel and signals timeout. -/
theorem ladder_checkpoints_and_timeout_commit_witness :
    (trivia_ladder 3 true sampleSess sampleSess sampleSess sampleSess sampleSess).2.2
      = true := by
  have h := (ladder_checkpoints_and_timeout_commit 3 sampleSess sampleSess
      sampleSess sampleSess sampleSess sampleSess sampleSess sampleSess).2.2.2.2.1
    (by decide) (by decide) (by decide) (by decide)
  rw [h]

/-! ### `lifecycle.ask_next_round` arity mismatch (`trivia/lifecycle.py`) -/

/-- A Python call result: either a value or an immediate `TypeError`. -/
inductive PyResult (α : Type)
  | ok (val : α)
  | typeError

/-- `manager.get_random_question` is declared with NO parameters
(`manager.py` line 118: `async def get_random_question():`). -/
def get_random_question_arity : Nat := 0

/-- Calling `get_random_question` with `passedArgs` positional arguments:
Python raises `TypeError` at the call when the count differs from the
declared arity. -/
def callGetRandomQuestion (fetch : Unit → Option Nat) (passedArgs : Nat) :
    PyResult (Option Nat) :=
  if passedArgs = get_random_question_arity then .ok (fetch ()) else .typeError

/-- `ask_next_round` from `trivia/lifecycle.py`: line 15 calls
`get_random_question(channel.guild.id)` with ONE positional argument; on
a `None` question it ends the session, otherwise it increments the round,
installs the question and resets the round state. -/
def lifecycle_ask_next_round (guildId : Nat) (fetch : Unit → Option Nat)
    (s : Sess) : PyResult Sess :=
  match callGetRandomQuestion fetch 1 with
  | .typeError => .typeError
  | .ok none => PyResult.ok ({s with inProgress := false, hasQuestion := false})
  | .ok (some _) =>
      PyResult.ok
        ({s with round := s.round + 1, hasQuestion := true, winnerId := none,
                 candidates := [], resolving := false})

/-- Claim C10: every invocation of the refactored `ask_next_round` raises
`TypeError` — it passes one positional argument to the zero-parameter
`get_random_question` — so this code path never produces a session state:
it can neither present a question nor advance a round. -/
theorem lifecycle_ask_next_round_type_error
    (guildId : Nat) (fetch : Unit → Option Nat) (s : Sess) :
    lifecycle_ask_next_round guildId fetch s = PyResult.typeError
    ∧ ∀ s2 : Sess, lifecycle_ask_next_round guildId fetch s ≠ PyResult.ok s2 := by
  constructor
  · rfl
  · intro s2 h
    exact PyResult.noConfusion h

/-! ### Interleaving model of one trivia session (C2, C8)

asyncio runs each coroutine atomically between `await` points.  The events
below are exactly those atomic blocks, with their in-code guards:

* `submitArm` / `submitLate` — `on_message` (`bot.py` 527-545): a correct
  submission is appended; if it is the first (`len(candidates) == 1`) and
  `winner_id` is unset, `resolving` is set and a resolver task is spawned
  with the captured round number.
* `resolverBail` / `resolverCommitStep` / `resolverCommitCrash` —
  `resolve_round_winner` after its grace sleep (`resolution.py` 27-57):
  re-validate, else pick the earliest candidate, set `winner_id`, bump the
  score; then `await award_points` suspends (or raises, killing the task).
* `postClearRun` — the resolver region after the awaited sends
  (`resolution.py` 78-92): quip flag, clear candidates, clear `resolving`.
* `postAdvEnd` / `postAdvNext` — the resolver region after the transition
  sleep (`resolution.py` 94-105): end the game or call `ask_next_round`.
* `ladderBail` / `ladderCommitStep` — the hint ladder's only mutation,
  its final checked commit (`hints.py` 148-157).
* `postTimeoutDead` / `postTimeoutEnd` / `postTimeoutNext` —
  `run_timeout_flow` after "timeout" (`lifecycle.py` 41-48).
* `askNextFound` / `askNextEmpty` — `ask_next_round` after its awaited
  question fetch (`lifecycle.py` 16-31): exhausted pool ends the session;
  otherwise increment the round, install the question, reset the round
  state, spawn the hint ladder.
* `stopGame` — `/trivia_stop` on a running game (`bot.py` 195-200).

The ghost logs `arms` (rounds at which a resolver was armed) and `awards`
(round, participant awarded) record the events claims C2 counts. -/

/-- A pending coroutine continuation, tagged with its captured round. -/
inductive STask
  | resolver (r : Nat)
  | ladder (r : Nat)
  | postClear (r : Nat)
  | postAdv (r : Nat)
  | postTimeout (r : Nat)
  | askNext
deriving DecidableEq, Repr

/-- A session configuration: shared state, pending tasks, and the ghost
event logs. -/
structure Conf where
  s : Sess
  tasks : List STask
  arms : List Nat
  awards : List (Nat × Int)

/-- `end_game` (`lifecycle.py` 54-59). -/
def endGameEff (s : Sess) : Sess :=
  {s with inProgress := false, hasQuestion := false, candidates := [],
          resolving := false}

/-- Resolver post-send region (`resolution.py` 78-92): quip flag at the
midpoint of long games, then clear candidates and `resolving`. -/
def postClearEff (s : Sess) : Sess :=
  let s1 :=
    if 15 ≤ s.maxRounds ∧ s.round = s.maxRounds / 2 ∧ s.midgameQuipDone = false
    then {s with midgameQuipDone := true} else s
  {s1 with candidates := [], resolving := false}

/-- `ask_next_round` success (`lifecycle.py` 24-26 with `reset_round`):
increment the round, install the question, clear winner/candidates/
resolving. -/
def askNextFoundEff (s : Sess) : Sess :=
  {s with round := s.round + 1, hasQuestion := true, winnerId := none,
          candidates := [], resolving := false}

/-- `/trivia_stop` on a running game (`bot.py` 196-200). -/
def stopEff (s : Sess) : Sess :=
  {s with inProgress := false, hasQuestion := false, winnerId := none,
          candidates := [], resolving := false}

/-- Successor for an arming submission. -/
def submitArmConf (c : Candidate) (cf : Conf) : Conf :=
  { s := {cf.s with candidates := cf.s.candidates ++ [c], resolving := true},
    tasks := STask.resolver cf.s.round :: cf.tasks,
    arms := cf.s.round :: cf.arms, awards := cf.awards }

/-- Successor for a non-arming submission. -/
def submitLateConf (c : Candidate) (cf : Conf) : Conf :=
  { s := {cf.s with candidates := cf.s.candidates ++ [c]},
    tasks := cf.tasks, arms := cf.arms, awards := cf.awards }

/-- Successor for a bailing resolver (stale round or no candidates). -/
def resolverBailConf (cf : Conf) (rest : List STask) : Conf :=
  { s := {cf.s with resolving := false}, tasks := rest,
    arms := cf.arms, awards := cf.awards }

/-- The resolver's commit writes before its first `await`
(`resolution.py` 53-57): set `winner_id`, bump the in-memory score. -/
def commitSessEff (w : Candidate) (s : Sess) : Sess :=
  {s with winnerId := some w.pid, scores := updateScore s.scores w.pid}

/-- Successor for a committing resolver up to its first `await`: winner
set to the earliest-timestamp candidate, score bumped, award logged, the
post-award continuation pending. -/
def resolverCommitConf (r : Nat) (c : Candidate) (cs : List Candidate)
    (cf : Conf) (rest : List STask) : Conf :=
  { s := commitSessEff (minCand c cs) cf.s,
    tasks := rest ++ [STask.postClear r],
    arms := cf.arms, awards := (r, (minCand c cs).pid) :: cf.awards }

/-- Same commit, but `award_points` raises and the task dies: no
continuation is scheduled (claim C3's failure mode). -/
def resolverCrashConf (r : Nat) (c : Candidate) (cs : List Candidate)
    (cf : Conf) (rest : List STask) : Conf :=
  { s := commitSessEff (minCand c cs) cf.s,
    tasks := rest,
    arms := cf.arms, awards := (r, (minCand c cs).pid) :: cf.awards }

/-- Successor for the resolver's post-send region. -/
def postClearConf (r : Nat) (cf : Conf) (rest : List STask) : Conf :=
  { s := postClearEff cf.s, tasks := rest ++ [STask.postAdv r],
    arms := cf.arms, awards := cf.awards }

/-- Successor: resolver transition region ends the game. -/
def postAdvEndConf (cf : Conf) (rest : List STask) : Conf :=
  { s := endGameEff cf.s, tasks := rest, arms := cf.arms, awards := cf.awards }

/-- Successor: resolver transition region schedules `ask_next_round`. -/
def postAdvNextConf (cf : Conf) (rest : List STask) : Conf :=
  { s := cf.s, tasks := rest ++ [STask.askNext],
    arms := cf.arms, awards := cf.awards }

/-- Successor for a silently-aborting hint ladder. -/
def ladderBailConf (cf : Conf) (rest : List STask) : Conf :=
  { s := cf.s, tasks := rest, arms := cf.arms, awards := cf.awards }

/-- Successor for the ladder's no-winner commit: sentinel `-1`, cleared
candidates, the timeout continuation pending. -/
def ladderCommitConf (r : Nat) (cf : Conf) (rest : List STask) : Conf :=
  { s := {cf.s with winnerId := some (-1), candidates := []},
    tasks := rest ++ [STask.postTimeout r],
    arms := cf.arms, awards := cf.awards }

/-- Successor: `run_timeout_flow` finds the game already stopped. -/
def postTimeoutDeadConf (cf : Conf) (rest : List STask) : Conf :=
  { s := cf.s, tasks := rest, arms := cf.arms, awards := cf.awards }

/-- Successor: `run_timeout_flow` ends the game. -/
def postTimeoutEndConf (cf : Conf) (rest : List STask) : Conf :=
  { s := endGameEff cf.s, tasks := rest, arms := cf.arms, awards := cf.awards }

/-- Successor: `run_timeout_flow` schedules `ask_next_round`. -/
def postTimeoutNextConf (cf : Conf) (rest : List STask) : Conf :=
  { s := cf.s, tasks := rest ++ [STask.askNext],
    arms := cf.arms, awards := cf.awards }

/-- Successor: `ask_next_round` installs the next question and spawns the
hint ladder for the new round. -/
def askNextFoundConf (cf : Conf) (rest : List STask) : Conf :=
  { s := askNextFoundEff cf.s,
    tasks := rest ++ [STask.ladder (cf.s.round + 1)],
    arms := cf.arms, awards := cf.awards }

/-- Successor: `ask_next_round` finds the pool exhausted. -/
def askNextEmptyConf (cf : Conf) (rest : List STask) : Conf :=
  { s := {cf.s with inProgress := false, hasQuestion := false},
    tasks := rest, arms := cf.arms, awards := cf.awards }

/-- Successor for `/trivia_stop`. -/
def stopConf (cf : Conf) : Conf :=
  { s := stopEff cf.s, tasks := cf.tasks, arms := cf.arms, awards := cf.awards }

/-- One atomic asyncio block, with the guard the code checks in it. -/
inductive Step : Conf → Conf → Prop
  | submitArm (c : Candidate) (cf : Conf)
      (hin : cf.s.inProgress = true) (hq : cf.s.hasQuestion = true)
      (hlen : (cf.s.candidates ++ [c]).length = 1)
      (hw : cf.s.winnerId = none) :
      Step cf (submitArmConf c cf)
  | submitLate (c : Candidate) (cf : Conf)
      (hin : cf.s.inProgress = true) (hq : cf.s.hasQuestion = true)
      (hno : ¬ ((cf.s.candidates ++ [c]).length = 1 ∧ cf.s.winnerId = none)) :
      Step cf (submitLateConf c cf)
  | resolverBail (r : Nat) (cf : Conf) (pre post : List STask)
      (ht : cf.tasks = pre ++ STask.resolver r :: post)
      (hg : cf.s.inProgress = false ∨ cf.s.hasQuestion = false
        ∨ cf.s.winnerId ≠ none ∨ cf.s.round ≠ r ∨ cf.s.candidates = []) :
      Step cf (resolverBailConf cf (pre ++ post))
  | resolverCommitStep (r : Nat) (cf : Conf) (pre post : List STask)
      (c : Candidate) (cs : List Candidate)
      (ht : cf.tasks = pre ++ STask.resolver r :: post)
      (hin : cf.s.inProgress = true) (hq : cf.s.hasQuestion = true)
      (hw : cf.s.winnerId = none) (hr : cf.s.round = r)
      (hc : cf.s.candidates = c :: cs) :
      Step cf (resolverCommitConf r c cs cf (pre ++ post))
  | resolverCommitCrash (r : Nat) (cf : Conf) (pre post : List STask)
      (c : Candidate) (cs : List Candidate)
      (ht : cf.tasks = pre ++ STask.resolver r :: post)
      (hin : cf.s.inProgress = true) (hq : cf.s.hasQuestion = true)
      (hw : cf.s.winnerId = none) (hr : cf.s.round = r)
      (hc : cf.s.candidates = c :: cs) :
      Step cf (resolverCrashConf r c cs cf (pre ++ post))
  | postClearRun (r : Nat) (cf : Conf) (pre post : List STask)
      (ht : cf.tasks = pre ++ STask.postClear r :: post) :
      Step cf (postClearConf r cf (pre ++ post))
  | postAdvEnd (r : Nat) (cf : Conf) (pre post : List STask)
      (ht : cf.tasks = pre ++ STask.postAdv r :: post)
      (hend : cf.s.maxRounds ≤ cf.s.round) :
      Step cf (postAdvEndConf cf (pre ++ post))
  | postAdvNext (r : Nat) (cf : Conf) (pre post : List STask)
      (ht : cf.tasks = pre ++ STask.postAdv r :: post)
      (hlt : cf.s.round < cf.s.maxRounds) :
      Step cf (postAdvNextConf cf (pre ++ post))
  | ladderBail (r : Nat) (cf : Conf) (pre post : List STask)
      (ht : cf.tasks = pre ++ STask.ladder r :: post)
      (hg : cf.s.inProgress = false ∨ cf.s.winnerId ≠ none ∨ cf.s.round ≠ r) :
      Step cf (ladderBailConf cf (pre ++ post))
  | ladderCommitStep (r : Nat) (cf : Conf) (pre post : List STask)
      (ht : cf.tasks = pre ++ STask.ladder r :: post)
      (hin : cf.s.inProgress = true) (hw : cf.s.winnerId = none)
      (hr : cf.s.round = r) :
      Step cf (ladderCommitConf r cf (pre ++ post))
  | postTimeoutDead (r : Nat) (cf : Conf) (pre post : List STask)
      (ht : cf.tasks = pre ++ STask.postTimeout r :: post)
      (hstop : cf.s.inProgress = false) :
      Step cf (postTimeoutDeadConf cf (pre ++ post))
  | postTimeoutEnd (r : Nat) (cf : Conf) (pre post : List STask)
      (ht : cf.tasks = pre ++ STask.postTimeout r :: post)
      (hin : cf.s.inProgress = true) (hend : cf.s.maxRounds ≤ cf.s.round) :
      Step cf (postTimeoutEndConf cf (pre ++ post))
  | postTimeoutNext (r : Nat) (cf : Conf) (pre post : List STask)
      (ht : cf.tasks = pre ++ STask.postTimeout r :: post)
      (hin : cf.s.inProgress = true) (hlt : cf.s.round < cf.s.maxRounds) :
      Step cf (postTimeoutNextConf cf (pre ++ post))
  | askNextFound (cf : Conf) (pre post : List STask)
      (ht : cf.tasks = pre ++ STask.askNext :: post) :
      Step cf (askNextFoundConf cf (pre ++ post))
  | askNextEmpty (cf : Conf) (pre post : List STask)
      (ht : cf.tasks = pre ++ STask.askNext :: post) :
      Step cf (askNextEmptyConf cf (pre ++ post))
  | stopGame (cf : Conf)
      (hin : cf.s.inProgress = true) :
      Step cf (stopConf cf)

/-- The configuration right after `/trivia` accepted a start request:
fresh session of `m` rounds, the first `ask_next_round` pending. -/
def initConf (m : Nat) : Conf :=
  { s := { round := 0, maxRounds := m, hasQuestion := false, winnerId := none,
           scores := fun _ => 0, inProgress := true, resolving := false,
           midgameQuipDone := false, candidates := [] },
    tasks := [STask.askNext], arms := [], awards := [] }

/-- Configurations reachable in a session started with `m` rounds. -/
inductive Reach (m : Nat) : Conf → Prop
  | init : Reach m (initConf m)
  | step {c c' : Conf} : Reach m c → Step c c' → Reach m c'

/-- Tasks that will (possibly) advance the round: the resolver's
post-commit chain, the timeout continuation, and a pending
`ask_next_round`. -/
def isAdvTask : STask → Bool
  | .postClear _ => true
  | .postAdv _ => true
  | .postTimeout _ => true
  | .askNext => true
  | _ => false

/-- The advance chain between a round-closing commit and the
`ask_next_round` schedule. -/
def isMidAdvTask : STask → Bool
  | .postClear _ => true
  | .postAdv _ => true
  | .postTimeout _ => true
  | _ => false

/-- The inductive invariant of reachable configurations. -/
structure SessInv (cf : Conf) : Prop where
  /-- The round counter never exceeds `maxRounds` (claim C8). -/
  roundLe : cf.s.round ≤ cf.s.maxRounds
  /-- `maxRounds` is positive (from the [5,100] start bound). -/
  maxPos : 1 ≤ cf.s.maxRounds
  /-- At most one advancing task is ever pending. -/
  advOne : cf.tasks.countP isAdvTask ≤ 1
  /-- While a mid-advance task is pending the round is closed (winner set)
  or the game stopped. -/
  midAdv : ∀ t ∈ cf.tasks, isMidAdvTask t = true →
      cf.s.winnerId ≠ none ∨ cf.s.inProgress = false
  /-- While `ask_next_round` is pending, either the round is closed / game
  stopped, or (at session start) nothing that could close a round exists. -/
  askNextInv : STask.askNext ∈ cf.tasks →
      (cf.s.winnerId ≠ none ∨ cf.s.inProgress = false)
      ∨ ((∀ r, STask.resolver r ∉ cf.tasks) ∧ (∀ r, STask.ladder r ∉ cf.tasks)
          ∧ cf.s.hasQuestion = false)
  /-- `ask_next_round` is scheduled only below the round bound. -/
  askNextRound : STask.askNext ∈ cf.tasks → cf.s.round < cf.s.maxRounds
  /-- The resolver is armed at most once per round (claim C2). -/
  armsOnce : ∀ r, cf.arms.count r ≤ 1
  /-- After arming, the current round always has a candidate, a winner, or
  the game stopped — so the arming condition can never re-fire. -/
  armsLive : ∀ r ∈ cf.arms,
      r < cf.s.round ∨ cf.s.inProgress = false ∨ cf.s.winnerId ≠ none
        ∨ cf.s.candidates ≠ []
  /-- Armed rounds never exceed the current round. -/
  armsUb : ∀ r ∈ cf.arms, r ≤ cf.s.round
  /-- At most one point is awarded per round (claim C2). -/
  awardsOnce : ∀ r, cf.awards.countP (fun a => a.1 = r) ≤ 1
  /-- After an award for the current round, `winner_id` stays set until
  the round changes or the game stops. -/
  awardsLive : ∀ a ∈ cf.awards,
      a.1 < cf.s.round ∨ cf.s.inProgress = false ∨ cf.s.winnerId ≠ none
  /-- Awarded rounds never exceed the current round. -/
  awardsUb : ∀ a ∈ cf.awards, a.1 ≤ cf.s.round

/-- Membership in the remainder lifts to the full task list. -/
theorem mem_of_rest {pre post : List STask} {t x : STask}
    (h : x ∈ pre ++ post) : x ∈ pre ++ t :: post := by
  rcases List.mem_append.mp h with h | h
  · exact List.mem_append.mpr (Or.inl h)
  · exact List.mem_append.mpr (Or.inr (List.mem_cons_of_mem _ h))

/-- Removing the fired task from the count. -/
theorem countP_decomp (pre post : List STask) (t : STask) (p : STask → Bool) :
    (pre ++ t :: post).countP p
      = (pre ++ post).countP p + if p t then 1 else 0 := by
  by_cases hp : p t = true <;>
    simp [hp, List.countP_append, List.countP_cons] <;> omega

/-- If the fired task is advancing and at most one advancing task is
pending, the remainder has none. -/
theorem no_other_adv {ts pre post : List STask} {t : STask}
    (hts : ts = pre ++ t :: post) (hadv : isAdvTask t = true)
    (hone : ts.countP isAdvTask ≤ 1) :
    ∀ x ∈ pre ++ post, isAdvTask x = false := by
  subst hts
  intro x hx
  cases hax : isAdvTask x
  · rfl
  · exfalso
    have h1 : 0 < (pre ++ post).countP isAdvTask :=
      List.countP_pos.mpr ⟨x, hx, hax⟩
    have h2 : (pre ++ t :: post).countP isAdvTask
        = (pre ++ post).countP isAdvTask + 1 := by
      rw [countP_decomp, hadv]
      simp
    omega

/-- While the current round is open (`in_progress`, no winner) and a
resolver or ladder task is pending, no advancing task is pending. -/
theorem no_adv_when_open {cf : Conf} (hi : SessInv cf)
    (hin : cf.s.inProgress = true) (hw : cf.s.winnerId = none)
    {pre post : List STask} {t0 : STask}
    (ht : cf.tasks = pre ++ t0 :: post)
    (ht0 : (∃ r, t0 = STask.resolver r) ∨ (∃ r, t0 = STask.ladder r)) :
    ∀ x ∈ cf.tasks, isAdvTask x = false := by
  have ht0mem : t0 ∈ cf.tasks := by
    rw [ht]
    exact List.mem_append.mpr (Or.inr (List.mem_cons_self _ _))
  intro x hx
  cases x with
  | resolver r => rfl
  | ladder r => rfl
  | postClear r =>
    rcases hi.midAdv _ hx (by rfl) with h | h
    · exact absurd hw h
    · rw [hin] at h
      exact Bool.noConfusion h
  | postAdv r =>
    rcases hi.midAdv _ hx (by rfl) with h | h
    · exact absurd hw h
    · rw [hin] at h
      exact Bool.noConfusion h
  | postTimeout r =>
    rcases hi.midAdv _ hx (by rfl) with h | h
    · exact absurd hw h
    · rw [hin] at h
      exact Bool.noConfusion h
  | askNext =>
    rcases hi.askNextInv hx with (h | h) | ⟨hres2, hlad, _⟩
    · exact absurd hw h
    · rw [hin] at h
      exact Bool.noConfusion h
    · rcases ht0 with ⟨r, rfl⟩ | ⟨r, rfl⟩
      · exact absurd ht0mem (hres2 r)
      · exact absurd ht0mem (hlad r)

/-- Under the commit guard, no award has yet been logged for the current
round. -/
theorem awards_zero_for_round {cf : Conf} (hi : SessInv cf)
    (hin : cf.s.inProgress = true) (hw : cf.s.winnerId = none) :
    cf.awards.countP (fun a => a.1 = cf.s.round) = 0 := by
  apply List.countP_eq_zero.mpr
  intro a ha
  rcases hi.awardsLive a ha with h | h | h
  · simp only [decide_eq_true_eq]
    omega
  · rw [hin] at h
    exact Bool.noConfusion h
  · exact absurd hw h

/-- Under the arming guard (open round, no candidates), the current round
was never armed before. -/
theorem arms_zero_for_round {cf : Conf} (hi : SessInv cf)
    (hin : cf.s.inProgress = true) (hw : cf.s.winnerId = none)
    (hcand : cf.s.candidates = []) :
    cf.s.round ∉ cf.arms := by
  intro hmem
  rcases hi.armsLive _ hmem with h | h | h | h
  · omega
  · rw [hin] at h
    exact Bool.noConfusion h
  · exact absurd hw h
  · exact absurd hcand h

/-- Mid-advance tasks are advancing. -/
theorem isAdv_of_isMidAdv {t : STask} (h : isMidAdvTask t = true) :
    isAdvTask t = true := by
  cases t <;> simp_all [isAdvTask, isMidAdvTask]

/-- Removing a pending advancing task leaves no advancing task. -/
theorem countP_rest_zero {cf : Conf} (hone : cf.tasks.countP isAdvTask ≤ 1)
    {pre post : List STask} {t : STask} (ht : cf.tasks = pre ++ t :: post)
    (hadv : isAdvTask t = true) :
    (pre ++ post).countP isAdvTask = 0 := by
  have h2 : cf.tasks.countP isAdvTask = (pre ++ post).countP isAdvTask + 1 := by
    rw [ht, countP_decomp, hadv]
    simp
  omega

/-- Under an open round with a pending resolver/ladder, the remainder
has no advancing task. -/
theorem countP_rest_zero_open {cf : Conf} (hi : SessInv cf)
    (hin : cf.s.inProgress = true) (hw : cf.s.winnerId = none)
    {pre post : List STask} {t0 : STask}
    (ht : cf.tasks = pre ++ t0 :: post)
    (ht0 : (∃ r, t0 = STask.resolver r) ∨ (∃ r, t0 = STask.ladder r)) :
    (pre ++ post).countP isAdvTask = 0 := by
  apply List.countP_eq_zero.mpr
  intro x hx
  have hx2 : x ∈ cf.tasks := by
    rw [ht]
    exact mem_of_rest hx
  simp [no_adv_when_open hi hin hw ht ht0 x hx2]

/-- Invariant preservation: arming submission. -/
theorem inv_submitArm (c : Candidate) (cf : Conf) (hi : SessInv cf)
    (hin : cf.s.inProgress = true) (hq : cf.s.hasQuestion = true)
    (hlen : (cf.s.candidates ++ [c]).length = 1) (hw : cf.s.winnerId = none) :
    SessInv (submitArmConf c cf) := by
  have hcand : cf.s.candidates = [] := by
    cases hx : cf.s.candidates with
    | nil => rfl
    | cons y ys =>
      rw [hx] at hlen
      simp at hlen
  have hnotin := arms_zero_for_round hi hin hw hcand
  refine ⟨hi.roundLe, hi.maxPos, ?_, ?_, ?_, ?_, ?_, ?_, ?_, hi.awardsOnce, ?_, ?_⟩
  · simpa [submitArmConf, List.countP_cons, isAdvTask] using hi.advOne
  · intro t htm hmid
    rcases List.mem_cons.mp htm with rfl | htm
    · exact absurd hmid (by simp [isMidAdvTask])
    · exact hi.midAdv t htm hmid
  · intro hm
    rcases List.mem_cons.mp hm with he | hm
    · exact STask.noConfusion he
    · rcases hi.askNextInv hm with (h | h) | ⟨_, _, h3⟩
      · exact absurd hw h
      · rw [hin] at h
        exact Bool.noConfusion h
      · rw [hq] at h3
        exact Bool.noConfusion h3
  · intro hm
    rcases List.mem_cons.mp hm with he | hm
    · exact STask.noConfusion he
    · rcases hi.askNextInv hm with (h | h) | ⟨_, _, h3⟩
      · exact absurd hw h
      · rw [hin] at h
        exact Bool.noConfusion h
      · rw [hq] at h3
        exact Bool.noConfusion h3
  · intro r
    by_cases hr : cf.s.round = r
    · subst hr
      simp [submitArmConf, List.count_cons, List.count_eq_zero.mpr hnotin]
    · have h1 := hi.armsOnce r
      have h2 : (submitArmConf c cf).arms.count r = cf.arms.count r := by
        simp [submitArmConf, List.count_cons, hr]
      omega
  · intro r _
    exact Or.inr (Or.inr (Or.inr (by simp [submitArmConf])))
  · intro r hmem
    rcases List.mem_cons.mp hmem with rfl | hmem
    · exact le_refl _
    · exact hi.armsUb r hmem
  · intro a ha
    exact hi.awardsLive a ha
  · intro a ha
    exact hi.awardsUb a ha

/-- Invariant preservation: non-arming submission. -/
theorem inv_submitLate (c : Candidate) (cf : Conf) (hi : SessInv cf)
    (hin : cf.s.inProgress = true) (hq : cf.s.hasQuestion = true) :
    SessInv (submitLateConf c cf) := by
  refine ⟨hi.roundLe, hi.maxPos, hi.advOne, ?_, ?_, hi.askNextRound,
    hi.armsOnce, ?_, hi.armsUb, hi.awardsOnce, ?_, hi.awardsUb⟩
  · intro t htm hmid
    exact hi.midAdv t htm hmid
  · intro hm
    rcases hi.askNextInv hm with h | ⟨_, _, h3⟩
    · exact Or.inl h
    · rw [hq] at h3
      exact Bool.noConfusion h3
  · intro r _
    exact Or.inr (Or.inr (Or.inr (by simp [submitLateConf])))
  · intro a ha
    exact hi.awardsLive a ha

/-- Invariant preservation: bailing resolver. -/
theorem inv_resolverBail (r : Nat) (cf : Conf) (pre post : List STask)
    (hi : SessInv cf) (ht : cf.tasks = pre ++ STask.resolver r :: post) :
    SessInv (resolverBailConf cf (pre ++ post)) := by
  have hresmem : STask.resolver r ∈ cf.tasks := by
    rw [ht]
    exact List.mem_append.mpr (Or.inr (List.mem_cons_self _ _))
  refine ⟨hi.roundLe, hi.maxPos, ?_, ?_, ?_, ?_, hi.armsOnce, ?_, hi.armsUb,
    hi.awardsOnce, ?_, hi.awardsUb⟩
  · have h2 : cf.tasks.countP isAdvTask = (pre ++ post).countP isAdvTask := by
      rw [ht, countP_decomp]
      simp [isAdvTask]
    have := hi.advOne
    simp only [resolverBailConf]
    omega
  · intro t htm hmid
    exact hi.midAdv t (by rw [ht]; exact mem_of_rest htm) hmid
  · intro hm
    rcases hi.askNextInv (by rw [ht]; exact mem_of_rest hm) with h | ⟨h1, _, _⟩
    · exact Or.inl h
    · exact absurd hresmem (h1 r)
  · intro hm
    exact hi.askNextRound (by rw [ht]; exact mem_of_rest hm)
  · intro r' hmem
    exact hi.armsLive r' hmem
  · intro a ha
    exact hi.awardsLive a ha

/-- Invariant preservation: committing resolver (award call succeeds). -/
theorem inv_resolverCommit (r : Nat) (cf : Conf) (pre post : List STask)
    (c : Candidate) (cs : List Candidate) (hi : SessInv cf)
    (ht : cf.tasks = pre ++ STask.resolver r :: post)
    (hin : cf.s.inProgress = true) (hw : cf.s.winnerId = none)
    (hr : cf.s.round = r) :
    SessInv (resolverCommitConf r c cs cf (pre ++ post)) := by
  have hrest0 := countP_rest_zero_open hi hin hw ht (Or.inl ⟨r, rfl⟩)
  have hawards0 := awards_zero_for_round hi hin hw
  have hnoAskRest : STask.askNext ∉ pre ++ post := by
    intro hm
    have := List.countP_eq_zero.mp hrest0 _ hm
    simp [isAdvTask] at this
  refine ⟨hi.roundLe, hi.maxPos, ?_, ?_, ?_, ?_, hi.armsOnce, ?_, hi.armsUb,
    ?_, ?_, ?_⟩
  · simp only [resolverCommitConf]
    rw [List.countP_append, hrest0]
    simp [isAdvTask]
  · intro t _ _
    exact Or.inl (by simp [resolverCommitConf, commitSessEff])
  · intro hm
    simp only [resolverCommitConf] at hm
    rcases List.mem_append.mp hm with hm | hm
    · exact absurd hm hnoAskRest
    · simp at hm
  · intro hm
    simp only [resolverCommitConf] at hm
    rcases List.mem_append.mp hm with hm | hm
    · exact absurd hm hnoAskRest
    · simp at hm
  · intro r' _
    exact Or.inr (Or.inr (by simp [resolverCommitConf, commitSessEff]))
  · intro r'
    simp only [resolverCommitConf]
    by_cases hr' : r = r'
    · subst hr'
      rw [hr] at hawards0
      simp [List.countP_cons, hawards0]
    · have h1 := hi.awardsOnce r'
      have h2 : ((r, (minCand c cs).pid) :: cf.awards).countP (fun a => a.1 = r')
          = cf.awards.countP (fun a => a.1 = r') := by
        simp [List.countP_cons, hr']
      omega
  · intro a _
    exact Or.inr (Or.inr (by simp [resolverCommitConf, commitSessEff]))
  · intro a ha
    simp only [resolverCommitConf] at ha ⊢
    rcases List.mem_cons.mp ha with rfl | ha
    · simp [commitSessEff]
      omega
    · exact hi.awardsUb a ha

/-- Invariant preservation: committing resolver whose `award_points`
raises (the task dies after the commit writes). -/
theorem inv_resolverCrash (r : Nat) (cf : Conf) (pre post : List STask)
    (c : Candidate) (cs : List Candidate) (hi : SessInv cf)
    (ht : cf.tasks = pre ++ STask.resolver r :: post)
    (hin : cf.s.inProgress = true) (hw : cf.s.winnerId = none)
    (hr : cf.s.round = r) :
    SessInv (resolverCrashConf r c cs cf (pre ++ post)) := by
  have hrest0 := countP_rest_zero_open hi hin hw ht (Or.inl ⟨r, rfl⟩)
  have hawards0 := awards_zero_for_round hi hin hw
  have hnoAskRest : STask.askNext ∉ pre ++ post := by
    intro hm
    have := List.countP_eq_zero.mp hrest0 _ hm
    simp [isAdvTask] at this
  refine ⟨hi.roundLe, hi.maxPos, ?_, ?_, ?_, ?_, hi.armsOnce, ?_, hi.armsUb,
    ?_, ?_, ?_⟩
  · simp only [resolverCrashConf]
    omega
  · intro t _ _
    exact Or.inl (by simp [resolverCrashConf, commitSessEff])
  · intro hm
    exact absurd hm hnoAskRest
  · intro hm
    exact absurd hm hnoAskRest
  · intro r' _
    exact Or.inr (Or.inr (by simp [resolverCrashConf, commitSessEff]))
  · intro r'
    simp only [resolverCrashConf]
    by_cases hr' : r = r'
    · subst hr'
      rw [hr] at hawards0
      simp [List.countP_cons, hawards0]
    · have h1 := hi.awardsOnce r'
      have h2 : ((r, (minCand c cs).pid) :: cf.awards).countP (fun a => a.1 = r')
          = cf.awards.countP (fun a => a.1 = r') := by
        simp [List.countP_cons, hr']
      omega
  · intro a _
    exact Or.inr (Or.inr (by simp [resolverCrashConf, commitSessEff]))
  · intro a ha
    simp only [resolverCrashConf] at ha ⊢
    rcases List.mem_cons.mp ha with rfl | ha
    · simp [commitSessEff]
      omega
    · exact hi.awardsUb a ha

/-- Field bookkeeping for the resolver's post-send region. -/
theorem postClearEff_fields (s : Sess) :
    (postClearEff s).round = s.round ∧ (postClearEff s).maxRounds = s.maxRounds
    ∧ (postClearEff s).winnerId = s.winnerId
    ∧ (postClearEff s).inProgress = s.inProgress
    ∧ (postClearEff s).hasQuestion = s.hasQuestion
    ∧ (postClearEff s).candidates = [] := by
  simp only [postClearEff]
  split <;> simp

/-- Invariant preservation: resolver post-send region. -/
theorem inv_postClearRun (r : Nat) (cf : Conf) (pre post : List STask)
    (hi : SessInv cf) (ht : cf.tasks = pre ++ STask.postClear r :: post) :
    SessInv (postClearConf r cf (pre ++ post)) := by
  have hmem : STask.postClear r ∈ cf.tasks := by
    rw [ht]
    exact List.mem_append.mpr (Or.inr (List.mem_cons_self _ _))
  have hJ := hi.midAdv _ hmem (by rfl)
  have hrest0 := countP_rest_zero hi.advOne ht (by rfl)
  have hf := postClearEff_fields cf.s
  have hnoAskRest : STask.askNext ∉ pre ++ post := by
    intro hm
    have := List.countP_eq_zero.mp hrest0 _ hm
    simp [isAdvTask] at this
  refine ⟨?_, ?_, ?_, ?_, ?_, ?_, hi.armsOnce, ?_, ?_, hi.awardsOnce, ?_, ?_⟩
  · simp only [postClearConf]
    rw [hf.1, hf.2.1]
    exact hi.roundLe
  · simp only [postClearConf]
    rw [hf.2.1]
    exact hi.maxPos
  · simp only [postClearConf]
    rw [List.countP_append, hrest0]
    simp [isAdvTask]
  · intro t htm hmid
    simp only [postClearConf] at htm
    rcases List.mem_append.mp htm with htm | htm
    · have := List.countP_eq_zero.mp hrest0 _ htm
      rw [isAdv_of_isMidAdv hmid] at this
      exact absurd rfl this
    · simp only [postClearConf]
      rw [hf.2.2.1, hf.2.2.2.1]
      exact hJ
  · intro hm
    simp only [postClearConf] at hm
    rcases List.mem_append.mp hm with hm | hm
    · exact absurd hm hnoAskRest
    · simp at hm
  · intro hm
    simp only [postClearConf] at hm
    rcases List.mem_append.mp hm with hm | hm
    · exact absurd hm hnoAskRest
    · simp at hm
  · intro r' _
    simp only [postClearConf]
    rw [hf.2.2.1, hf.2.2.2.1]
    rcases hJ with h | h
    · exact Or.inr (Or.inr (Or.inl h))
    · exact Or.inr (Or.inl h)
  · intro r' hmem'
    simp only [postClearConf]
    rw [hf.1]
    exact hi.armsUb r' hmem'
  · intro a ha
    simp only [postClearConf]
    rw [hf.2.2.1, hf.2.2.2.1]
    rcases hJ with h | h
    · exact Or.inr (Or.inr h)
    · exact Or.inr (Or.inl h)
  · intro a ha
    simp only [postClearConf]
    rw [hf.1]
    exact hi.awardsUb a ha

/-- Invariant preservation: resolver transition region ends the game. -/
theorem inv_postAdvEnd (r : Nat) (cf : Conf) (pre post : List STask)
    (hi : SessInv cf) (ht : cf.tasks = pre ++ STask.postAdv r :: post) :
    SessInv (postAdvEndConf cf (pre ++ post)) := by
  have hrest0 := countP_rest_zero hi.advOne ht (by rfl)
  have hnoAskRest : STask.askNext ∉ pre ++ post := by
    intro hm
    have := List.countP_eq_zero.mp hrest0 _ hm
    simp [isAdvTask] at this
  refine ⟨hi.roundLe, hi.maxPos, ?_, ?_, ?_, ?_, hi.armsOnce, ?_, hi.armsUb,
    hi.awardsOnce, ?_, hi.awardsUb⟩
  · simp only [postAdvEndConf]
    omega
  · intro t _ _
    exact Or.inr (by simp [postAdvEndConf, endGameEff])
  · intro _
    exact Or.inl (Or.inr (by simp [postAdvEndConf, endGameEff]))
  · intro hm
    exact absurd hm hnoAskRest
  · intro r' _
    exact Or.inr (Or.inl (by simp [postAdvEndConf, endGameEff]))
  · intro a _
    exact Or.inr (Or.inl (by simp [postAdvEndConf, endGameEff]))

/-- Invariant preservation: resolver transition region schedules the next
round. -/
theorem inv_postAdvNext (r : Nat) (cf : Conf) (pre post : List STask)
    (hi : SessInv cf) (ht : cf.tasks = pre ++ STask.postAdv r :: post)
    (hlt : cf.s.round < cf.s.maxRounds) :
    SessInv (postAdvNextConf cf (pre ++ post)) := by
  have hmem : STask.postAdv r ∈ cf.tasks := by
    rw [ht]
    exact List.mem_append.mpr (Or.inr (List.mem_cons_self _ _))
  have hJ := hi.midAdv _ hmem (by rfl)
  have hrest0 := countP_rest_zero hi.advOne ht (by rfl)
  refine ⟨hi.roundLe, hi.maxPos, ?_, ?_, ?_, ?_, hi.armsOnce, ?_, hi.armsUb,
    hi.awardsOnce, ?_, hi.awardsUb⟩
  · simp only [postAdvNextConf]
    rw [List.countP_append, hrest0]
    simp [isAdvTask]
  · intro t htm hmid
    simp only [postAdvNextConf] at htm
    rcases List.mem_append.mp htm with htm | htm
    · have := List.countP_eq_zero.mp hrest0 _ htm
      rw [isAdv_of_isMidAdv hmid] at this
      exact absurd rfl this
    · simp only [List.mem_singleton] at htm
      subst htm
      exact absurd hmid (by simp [isMidAdvTask])
  · intro _
    exact Or.inl hJ
  · intro _
    exact hlt
  · intro r' hmem'
    exact hi.armsLive r' hmem'
  · intro a ha
    exact hi.awardsLive a ha

/-- Invariant preservation: silently-aborting hint ladder. -/
theorem inv_ladderBail (r : Nat) (cf : Conf) (pre post : List STask)
    (hi : SessInv cf) (ht : cf.tasks = pre ++ STask.ladder r :: post) :
    SessInv (ladderBailConf cf (pre ++ post)) := by
  have hladmem : STask.ladder r ∈ cf.tasks := by
    rw [ht]
    exact List.mem_append.mpr (Or.inr (List.mem_cons_self _ _))
  refine ⟨hi.roundLe, hi.maxPos, ?_, ?_, ?_, ?_, hi.armsOnce, ?_, hi.armsUb,
    hi.awardsOnce, ?_, hi.awardsUb⟩
  · have h2 : cf.tasks.countP isAdvTask = (pre ++ post).countP isAdvTask := by
      rw [ht, countP_decomp]
      simp [isAdvTask]
    have := hi.advOne
    simp only [ladderBailConf]
    omega
  · intro t htm hmid
    exact hi.midAdv t (by rw [ht]; exact mem_of_rest htm) hmid
  · intro hm
    rcases hi.askNextInv (by rw [ht]; exact mem_of_rest hm) with h | ⟨_, h2, _⟩
    · exact Or.inl h
    · exact absurd hladmem (h2 r)
  · intro hm
    exact hi.askNextRound (by rw [ht]; exact mem_of_rest hm)
  · intro r' hmem'
    exact hi.armsLive r' hmem'
  · intro a ha
    exact hi.awardsLive a ha

/-- Invariant preservation: ladder no-winner commit. -/
theorem inv_ladderCommit (r : Nat) (cf : Conf) (pre post : List STask)
    (hi : SessInv cf) (ht : cf.tasks = pre ++ STask.ladder r :: post)
    (hin : cf.s.inProgress = true) (hw : cf.s.winnerId = none) :
    SessInv (ladderCommitConf r cf (pre ++ post)) := by
  have hrest0 := countP_rest_zero_open hi hin hw ht (Or.inr ⟨r, rfl⟩)
  have hnoAskRest : STask.askNext ∉ pre ++ post := by
    intro hm
    have := List.countP_eq_zero.mp hrest0 _ hm
    simp [isAdvTask] at this
  refine ⟨hi.roundLe, hi.maxPos, ?_, ?_, ?_, ?_, hi.armsOnce, ?_, hi.armsUb,
    hi.awardsOnce, ?_, hi.awardsUb⟩
  · simp only [ladderCommitConf]
    rw [List.countP_append, hrest0]
    simp [isAdvTask]
  · intro t _ _
    exact Or.inl (by simp [ladderCommitConf])
  · intro hm
    simp only [ladderCommitConf] at hm
    rcases List.mem_append.mp hm with hm | hm
    · exact absurd hm hnoAskRest
    · simp at hm
  · intro hm
    simp only [ladderCommitConf] at hm
    rcases List.mem_append.mp hm with hm | hm
    · exact absurd hm hnoAskRest
    · simp at hm
  · intro r' _
    exact Or.inr (Or.inr (Or.inl (by simp [ladderCommitConf])))
  · intro a _
    exact Or.inr (Or.inr (by simp [ladderCommitConf]))

/-- Invariant preservation: timeout continuation finds the game stopped. -/
theorem inv_postTimeoutDead (r : Nat) (cf : Conf) (pre post : List STask)
    (hi : SessInv cf) (ht : cf.tasks = pre ++ STask.postTimeout r :: post) :
    SessInv (postTimeoutDeadConf cf (pre ++ post)) := by
  have hrest0 := countP_rest_zero hi.advOne ht (by rfl)
  have hnoAskRest : STask.askNext ∉ pre ++ post := by
    intro hm
    have := List.countP_eq_zero.mp hrest0 _ hm
    simp [isAdvTask] at this
  refine ⟨hi.roundLe, hi.maxPos, ?_, ?_, ?_, ?_, hi.armsOnce, ?_, hi.armsUb,
    hi.awardsOnce, ?_, hi.awardsUb⟩
  · simp only [postTimeoutDeadConf]
    omega
  · intro t htm hmid
    exact hi.midAdv t (by rw [ht]; exact mem_of_rest htm) hmid
  · intro hm
    exact absurd hm hnoAskRest
  · intro hm
    exact absurd hm hnoAskRest
  · intro r' hmem'
    exact hi.armsLive r' hmem'
  · intro a ha
    exact hi.awardsLive a ha

/-- Invariant preservation: timeout continuation ends the game. -/
theorem inv_postTimeoutEnd (r : Nat) (cf : Conf) (pre post : List STask)
    (hi : SessInv cf) (ht : cf.tasks = pre ++ STask.postTimeout r :: post) :
    SessInv (postTimeoutEndConf cf (pre ++ post)) := by
  have hrest0 := countP_rest_zero hi.advOne ht (by rfl)
  have hnoAskRest : STask.askNext ∉ pre ++ post := by
    intro hm
    have := List.countP_eq_zero.mp hrest0 _ hm
    simp [isAdvTask] at this
  refine ⟨hi.roundLe, hi.maxPos, ?_, ?_, ?_, ?_, hi.armsOnce, ?_, hi.armsUb,
    hi.awardsOnce, ?_, hi.awardsUb⟩
  · simp only [postTimeoutEndConf]
    omega
  · intro t _ _
    exact Or.inr (by simp [postTimeoutEndConf, endGameEff])
  · intro _
    exact Or.inl (Or.inr (by simp [postTimeoutEndConf, endGameEff]))
  · intro hm
    exact absurd hm hnoAskRest
  · intro r' _
    exact Or.inr (Or.inl (by simp [postTimeoutEndConf, endGameEff]))
  · intro a _
    exact Or.inr (Or.inl (by simp [postTimeoutEndConf, endGameEff]))

/-- Invariant preservation: timeout continuation schedules the next round. -/
theorem inv_postTimeoutNext (r : Nat) (cf : Conf) (pre post : List STask)
    (hi : SessInv cf) (ht : cf.tasks = pre ++ STask.postTimeout r :: post)
    (hlt : cf.s.round < cf.s.maxRounds) :
    SessInv (postTimeoutNextConf cf (pre ++ post)) := by
  have hmem : STask.postTimeout r ∈ cf.tasks := by
    rw [ht]
    exact List.mem_append.mpr (Or.inr (List.mem_cons_self _ _))
  have hJ := hi.midAdv _ hmem (by rfl)
  have hrest0 := countP_rest_zero hi.advOne ht (by rfl)
  refine ⟨hi.roundLe, hi.maxPos, ?_, ?_, ?_, ?_, hi.armsOnce, ?_, hi.armsUb,
    hi.awardsOnce, ?_, hi.awardsUb⟩
  · simp only [postTimeoutNextConf]
    rw [List.countP_append, hrest0]
    simp [isAdvTask]
  · intro t htm hmid
    simp only [postTimeoutNextConf] at htm
    rcases List.mem_append.mp htm with htm | htm
    · have := List.countP_eq_zero.mp hrest0 _ htm
      rw [isAdv_of_isMidAdv hmid] at this
      exact absurd rfl this
    · simp only [List.mem_singleton] at htm
      subst htm
      exact absurd hmid (by simp [isMidAdvTask])
  · intro _
    exact Or.inl hJ
  · intro _
    exact hlt
  · intro r' hmem'
    exact hi.armsLive r' hmem'
  · intro a ha
    exact hi.awardsLive a ha

/-- Invariant preservation: `ask_next_round` installs the next question. -/
theorem inv_askNextFound (cf : Conf) (pre post : List STask)
    (hi : SessInv cf) (ht : cf.tasks = pre ++ STask.askNext :: post) :
    SessInv (askNextFoundConf cf (pre ++ post)) := by
  have hmem : STask.askNext ∈ cf.tasks := by
    rw [ht]
    exact List.mem_append.mpr (Or.inr (List.mem_cons_self _ _))
  have hlt := hi.askNextRound hmem
  have hrest0 := countP_rest_zero hi.advOne ht (by rfl)
  have hnoAskRest : STask.askNext ∉ pre ++ post := by
    intro hm
    have := List.countP_eq_zero.mp hrest0 _ hm
    simp [isAdvTask] at this
  refine ⟨?_, ?_, ?_, ?_, ?_, ?_, hi.armsOnce, ?_, ?_, hi.awardsOnce, ?_, ?_⟩
  · simp only [askNextFoundConf, askNextFoundEff]
    omega
  · simp only [askNextFoundConf, askNextFoundEff]
    exact hi.maxPos
  · simp only [askNextFoundConf]
    rw [List.countP_append, hrest0]
    simp [isAdvTask]
  · intro t htm hmid
    simp only [askNextFoundConf] at htm
    rcases List.mem_append.mp htm with htm | htm
    · have := List.countP_eq_zero.mp hrest0 _ htm
      rw [isAdv_of_isMidAdv hmid] at this
      exact absurd rfl this
    · simp only [List.mem_singleton] at htm
      subst htm
      exact absurd hmid (by simp [isMidAdvTask])
  · intro hm
    simp only [askNextFoundConf] at hm
    rcases List.mem_append.mp hm with hm | hm
    · exact absurd hm hnoAskRest
    · simp at hm
  · intro hm
    simp only [askNextFoundConf] at hm
    rcases List.mem_append.mp hm with hm | hm
    · exact absurd hm hnoAskRest
    · simp at hm
  · intro r' hmem'
    have := hi.armsUb r' hmem'
    exact Or.inl (by simp only [askNextFoundConf, askNextFoundEff]; omega)
  · intro r' hmem'
    have := hi.armsUb r' hmem'
    simp only [askNextFoundConf, askNextFoundEff]
    omega
  · intro a ha
    have := hi.awardsUb a ha
    exact Or.inl (by simp only [askNextFoundConf, askNextFoundEff]; omega)
  · intro a ha
    have := hi.awardsUb a ha
    simp only [askNextFoundConf, askNextFoundEff]
    omega

/-- Invariant preservation: `ask_next_round` finds the pool exhausted. -/
theorem inv_askNextEmpty (cf : Conf) (pre post : List STask)
    (hi : SessInv cf) (ht : cf.tasks = pre ++ STask.askNext :: post) :
    SessInv (askNextEmptyConf cf (pre ++ post)) := by
  have hrest0 := countP_rest_zero hi.advOne ht (by rfl)
  have hnoAskRest : STask.askNext ∉ pre ++ post := by
    intro hm
    have := List.countP_eq_zero.mp hrest0 _ hm
    simp [isAdvTask] at this
  refine ⟨hi.roundLe, hi.maxPos, ?_, ?_, ?_, ?_, hi.armsOnce, ?_, hi.armsUb,
    hi.awardsOnce, ?_, hi.awardsUb⟩
  · simp only [askNextEmptyConf]
    omega
  · intro t _ _
    exact Or.inr (by simp [askNextEmptyConf])
  · intro _
    exact Or.inl (Or.inr (by simp [askNextEmptyConf]))
  · intro hm
    exact absurd hm hnoAskRest
  · intro r' _
    exact Or.inr (Or.inl (by simp [askNextEmptyConf]))
  · intro a _
    exact Or.inr (Or.inl (by simp [askNextEmptyConf]))

/-- Invariant preservation: `/trivia_stop`. -/
theorem inv_stopGame (cf : Conf) (hi : SessInv cf) :
    SessInv (stopConf cf) := by
  refine ⟨hi.roundLe, hi.maxPos, hi.advOne, ?_, ?_, hi.askNextRound,
    hi.armsOnce, ?_, hi.armsUb, hi.awardsOnce, ?_, hi.awardsUb⟩
  · intro t _ _
    exact Or.inr (by simp [stopConf, stopEff])
  · intro _
    exact Or.inl (Or.inr (by simp [stopConf, stopEff]))
  · intro r' _
    exact Or.inr (Or.inl (by simp [stopConf, stopEff]))
  · intro a _
    exact Or.inr (Or.inl (by simp [stopConf, stopEff]))

/-- One step preserves the invariant. -/
theorem inv_step {cf cf' : Conf} (h : Step cf cf') (hi : SessInv cf) :
    SessInv cf' := by
  cases h with
  | submitArm c cf hin hq hlen hw => exact inv_submitArm c cf hi hin hq hlen hw
  | submitLate c cf hin hq hno => exact inv_submitLate c cf hi hin hq
  | resolverBail r cf pre post ht hg => exact inv_resolverBail r cf pre post hi ht
  | resolverCommitStep r cf pre post c cs ht hin hq hw hr hc =>
    exact inv_resolverCommit r cf pre post c cs hi ht hin hw hr
  | resolverCommitCrash r cf pre post c cs ht hin hq hw hr hc =>
    exact inv_resolverCrash r cf pre post c cs hi ht hin hw hr
  | postClearRun r cf pre post ht => exact inv_postClearRun r cf pre post hi ht
  | postAdvEnd r cf pre post ht hend => exact inv_postAdvEnd r cf pre post hi ht
  | postAdvNext r cf pre post ht hlt =>
    exact inv_postAdvNext r cf pre post hi ht hlt
  | ladderBail r cf pre post ht hg => exact inv_ladderBail r cf pre post hi ht
  | ladderCommitStep r cf pre post ht hin hw hr =>
    exact inv_ladderCommit r cf pre post hi ht hin hw
  | postTimeoutDead r cf pre post ht hstop =>
    exact inv_postTimeoutDead r cf pre post hi ht
  | postTimeoutEnd r cf pre post ht hin hend =>
    exact inv_postTimeoutEnd r cf pre post hi ht
  | postTimeoutNext r cf pre post ht hin hlt =>
    exact inv_postTimeoutNext r cf pre post hi ht hlt
  | askNextFound cf pre post ht => exact inv_askNextFound cf pre post hi ht
  | askNextEmpty cf pre post ht => exact inv_askNextEmpty cf pre post hi ht
  | stopGame cf hin => exact inv_stopGame cf hi

/-- The invariant holds at session start (with the validated round bound). -/
theorem inv_init (m : Nat) (hm : 1 ≤ m) : SessInv (initConf m) := by
  refine ⟨by simp [initConf], by simpa [initConf] using hm, ?_, ?_, ?_, ?_,
    ?_, ?_, ?_, ?_, ?_, ?_⟩
  · simp [initConf, List.countP_cons, isAdvTask]
  · intro t htm hmid
    simp only [initConf, List.mem_singleton] at htm
    subst htm
    exact absurd hmid (by simp [isMidAdvTask])
  · intro _
    refine Or.inr ⟨?_, ?_, by simp [initConf]⟩
    · intro r hr
      simp [initConf] at hr
    · intro r hr
      simp [initConf] at hr
  · intro _
    simpa [initConf] using hm
  · intro r
    simp [initConf]
  · intro r hr
    simp [initConf] at hr
  · intro r hr
    simp [initConf] at hr
  · intro r
    simp [initConf]
  · intro a ha
    simp [initConf] at ha
  · intro a ha
    simp [initConf] at ha

/-- The invariant holds at every reachable configuration. -/
theorem inv_reach {m : Nat} (hm : 1 ≤ m) {cf : Conf} (h : Reach m cf) :
    SessInv cf := by
  induction h with
  | init => exact inv_init m hm
  | step _ hstep ih => exact inv_step hstep ih

/-- Every step changes the round by 0 or exactly +1 and never changes
`maxRounds`. -/
theorem step_round {cf cf' : Conf} (h : Step cf cf') :
    (cf'.s.round = cf.s.round ∨ cf'.s.round = cf.s.round + 1)
    ∧ cf'.s.maxRounds = cf.s.maxRounds := by
  cases h with
  | submitArm c cf hin hq hlen hw => exact ⟨Or.inl rfl, rfl⟩
  | submitLate c cf hin hq hno => exact ⟨Or.inl rfl, rfl⟩
  | resolverBail r cf pre post ht hg => exact ⟨Or.inl rfl, rfl⟩
  | resolverCommitStep r cf pre post c cs ht hin hq hw hr hc =>
    exact ⟨Or.inl rfl, rfl⟩
  | resolverCommitCrash r cf pre post c cs ht hin hq hw hr hc =>
    exact ⟨Or.inl rfl, rfl⟩
  | postClearRun r cf pre post ht =>
    exact ⟨Or.inl (postClearEff_fields cf.s).1, (postClearEff_fields cf.s).2.1⟩
  | postAdvEnd r cf pre post ht hend => exact ⟨Or.inl rfl, rfl⟩
  | postAdvNext r cf pre post ht hlt => exact ⟨Or.inl rfl, rfl⟩
  | ladderBail r cf pre post ht hg => exact ⟨Or.inl rfl, rfl⟩
  | ladderCommitStep r cf pre post ht hin hw hr => exact ⟨Or.inl rfl, rfl⟩
  | postTimeoutDead r cf pre post ht hstop => exact ⟨Or.inl rfl, rfl⟩
  | postTimeoutEnd r cf pre post ht hin hend => exact ⟨Or.inl rfl, rfl⟩
  | postTimeoutNext r cf pre post ht hin hlt => exact ⟨Or.inl rfl, rfl⟩
  | askNextFound cf pre post ht => exact ⟨Or.inr rfl, rfl⟩
  | askNextEmpty cf pre post ht => exact ⟨Or.inl rfl, rfl⟩
  | stopGame cf hin => exact ⟨Or.inl rfl, rfl⟩

/-- Claim C8: in every configuration reachable from a validated session
start, the round counter never exceeds `maxRounds`; and every step either
leaves the round unchanged or increments it by exactly 1 (never skipping a
value), with the bound still holding afterwards.  Advancement is possible
only via a pending `ask_next_round`, which the invariant `askNextRound`
shows is scheduled only while `round < maxRounds` — otherwise the
transition regions end the session (`postAdvEnd` / `postTimeoutEnd`). -/
theorem round_monotone_and_bounded (m : Nat) (hm : 5 ≤ m) (cf cf' : Conf)
    (hr : Reach m cf) :
    cf.s.round ≤ cf.s.maxRounds
    ∧ (Step cf cf' →
        (cf'.s.round = cf.s.round ∨ cf'.s.round = cf.s.round + 1)
        ∧ cf'.s.round ≤ cf'.s.maxRounds) := by
  have hi := inv_reach (by omega) hr
  refine ⟨hi.roundLe, ?_⟩
  intro hstep
  have hi' := inv_step hstep hi
  exact ⟨(step_round hstep).1, hi'.roundLe⟩

/-- Witness for `round_monotone_and_bounded` at the freshly started
10-round session. -/
theorem round_monotone_and_bounded_witness :
    (initConf 10).s.round ≤ (initConf 10).s.maxRounds :=
  (round_monotone_and_bounded 10 (by norm_num) (initConf 10) (initConf 10)
    Reach.init).1

/-- Claim C2: in every reachable configuration of a session, each round
has been armed (a resolver task spawned by the first correct candidate
arriving while `winner_id` is unset and the candidate list was empty) at
most once, and at most one participant has been awarded a point for it.
Arming is possible only through the `submitArm` event whose guard is the
code's `len(candidates) == 1 and winner_id is None` check-and-set, and an
award happens only through the resolver commit events, whose guards are
the code's re-validation (in progress, question present, `winner_id`
unset, round unchanged). -/
theorem resolver_single_trigger_single_award (m : Nat) (hm : 5 ≤ m)
    (cf : Conf) (hr : Reach m cf) (r : Nat) :
    cf.arms.count r ≤ 1
    ∧ cf.awards.countP (fun a => a.1 = r) ≤ 1 := by
  have hi := inv_reach (by omega) hr
  exact ⟨hi.armsOnce r, hi.awardsOnce r⟩

/-- Witness for `resolver_single_trigger_single_award` on a genuine
trace: start a 10-round session, ask round 1, receive a first correct
submission (arming the resolver), and let the resolver commit the
winner — round 1 has one arm and one award. -/
theorem resolver_single_trigger_single_award_witness :
    (resolverCommitConf 1 ⟨7, 100⟩ []
        (submitArmConf ⟨7, 100⟩ (askNextFoundConf (initConf 10) ([] ++ [])))
        ([] ++ [STask.ladder 1])).arms.count 1 ≤ 1
    ∧ (resolverCommitConf 1 ⟨7, 100⟩ []
        (submitArmConf ⟨7, 100⟩ (askNextFoundConf (initConf 10) ([] ++ [])))
        ([] ++ [STask.ladder 1])).awards.countP (fun a => a.1 = 1) ≤ 1 := by
  have s1 : Step (initConf 10) (askNextFoundConf (initConf 10) ([] ++ [])) :=
    Step.askNextFound (initConf 10) [] [] rfl
  have s2 : Step (askNextFoundConf (initConf 10) ([] ++ []))
      (submitArmConf ⟨7, 100⟩ (askNextFoundConf (initConf 10) ([] ++ []))) :=
    Step.submitArm ⟨7, 100⟩ (askNextFoundConf (initConf 10) ([] ++ []))
      rfl rfl rfl rfl
  have s3 : Step
      (submitArmConf ⟨7, 100⟩ (askNextFoundConf (initConf 10) ([] ++ [])))
      (resolverCommitConf 1 ⟨7, 100⟩ []
        (submitArmConf ⟨7, 100⟩ (askNextFoundConf (initConf 10) ([] ++ [])))
        ([] ++ [STask.ladder 1])) :=
    Step.resolverCommitStep 1
      (submitArmConf ⟨7, 100⟩ (askNextFoundConf (initConf 10) ([] ++ [])))
      [] [STask.ladder 1] ⟨7, 100⟩ [] rfl rfl rfl rfl rfl rfl
  exact resolver_single_trigger_single_award 10 (by norm_num) _
    (Reach.step (Reach.step (Reach.step Reach.init s1) s2) s3) 1
